import Mathlib

/-!
Verification development for the KEN-AI weather-context chat backend
(`backend/main.py`, `backend/weather.py`).

Strings are modelled as `List Char`; Python floats as `ℚ`; time stamps as
`ℚ` seconds; "null" (Python `None`) as `Option`.  External network calls
(geocoding, weather provider, the streaming model backend, JSON parsing and
serialization) are modelled as oracle parameters: an `Option`-valued argument
stands for the outcome of one upstream call (`none` = non-200 status, network
fault, or unparsable body — the code collapses all of these to `None`).
-/

set_option maxHeartbeats 1000000

abbrev Str := List Char

/-- Apostrophe character (ASCII 39), as used in the pattern `what's the weather in`. -/
def apos : Char := Char.ofNat 39

/-- Newline character (ASCII 10). -/
def nlChar : Char := Char.ofNat 10

/-- Whitespace test used by Python `str.strip()` / `str.split()` / regex `\s`
(modulo `\v`/`\f`, which never occur in the data handled here). -/
def isWs (c : Char) : Bool := c.isWhitespace

/-- Word character for regex `\b` boundaries: `[A-Za-z0-9_]`. -/
def isWordChar (c : Char) : Bool := c.isAlphanum || c = '_'

/-- Character class `[\w\s,.'-]` from the location-extraction patterns in
`extract_location` (`main.py`). -/
def isClassChar (c : Char) : Bool :=
  c.isAlphanum || c = '_' || c.isWhitespace || c = ',' || c = '.' || c = apos || c = '-'

/-- Python `str.lower()`. -/
def pyLower (s : Str) : Str := s.map Char.toLower

/-- Trim leading whitespace. -/
def trimLeft (s : Str) : Str := s.dropWhile isWs

/-- Trim trailing whitespace. -/
def trimRight (s : Str) : Str := (s.reverse.dropWhile isWs).reverse

/-- Python `str.strip()`. -/
def pyStrip (s : Str) : Str := trimLeft (trimRight s)

/-- Python `str.title()`: an alphabetic character is uppercased when the
previous character is not alphabetic, lowercased otherwise. -/
def pyTitleGo (prevAlpha : Bool) : Str → Str
  | [] => []
  | c :: cs =>
    (if c.isAlpha then (if prevAlpha then c.toLower else c.toUpper) else c) ::
      pyTitleGo c.isAlpha cs

/-- Python `str.title()`. -/
def pyTitle (s : Str) : Str := pyTitleGo false s

/-- Python `str.split()` (split on whitespace runs, no empty fragments).
`cur` holds the current fragment reversed. -/
def splitWsAux (cur : Str) : Str → List Str
  | [] => if cur.isEmpty then [] else [cur.reverse]
  | c :: cs =>
    if isWs c then
      (if cur.isEmpty then splitWsAux [] cs else cur.reverse :: splitWsAux [] cs)
    else splitWsAux (c :: cur) cs

/-- Python `str.split()` with no argument. -/
def splitWs (s : Str) : List Str := splitWsAux [] s

/-- Python `text.split("\n")` (keeps empty fragments). -/
def splitNl : Str → List Str
  | [] => [[]]
  | c :: cs =>
    if c = nlChar then [] :: splitNl cs
    else match splitNl cs with
      | [] => [[c]]
      | f :: rest => (c :: f) :: rest

/-- Substring test: `pat` occurs somewhere in `s` (Python `pat in s`). -/
def containsSub (pat : Str) : Str → Bool
  | [] => pat.isEmpty
  | s@(_ :: cs) => pat.isPrefixOf s || containsSub pat cs

/-- First-some choice on options (Python's pattern of returning from the first
branch that produced a value). -/
def oOr (a b : Option α) : Option α :=
  match a with
  | some x => some x
  | none => b

/-- Option bind written out (used to chain a regex search with normalization). -/
def oBind (a : Option α) (f : α → Option β) : Option β :=
  match a with
  | some x => f x
  | none => none

/-! ### Regex machinery for `extract_location`

The ten phrase patterns all have the form `LIT([\w\s,.'-]+)` or
`LIT1.*LIT2([\w\s,.'-]+)`; the reverse pattern is
`([\w\s,.'-]+)\s+(weather|temperature|forecast)`.  We implement Python
`re.search` semantics for exactly these shapes: leftmost match start, greedy
quantifiers with backtracking, alternation tried left to right. -/

/-- Maximal run of class characters at the head of `s` (the greedy
`([\w\s,.'-]+)` capture, which is at the end of every phrase pattern). -/
def takeClass : Str → Str
  | [] => []
  | c :: cs => if isClassChar c then c :: takeClass cs else []

/-- `re.search` for a pattern `lit([\w\s,.'-]+)`: scan left to right for the
first position where `lit` matches and at least one class character follows;
the capture is the maximal class run there. -/
def searchLitClass (lit : Str) : Str → Option Str
  | [] => none
  | s@(_ :: cs) =>
    if lit.isPrefixOf s then
      let grp := takeClass (s.drop lit.length)
      if grp.isEmpty then searchLitClass lit cs else some grp
    else searchLitClass lit cs

/-- Greedy `.*lit2([\w\s,.'-]+)` continuation: among the positions reachable
without crossing a newline (`.` does not match `\n`), prefer the latest
position where `lit2` matches with a nonempty class capture. -/
def dotStarScan (lit2 : Str) : Str → Option Str
  | [] => none
  | s@(c :: cs) =>
    oOr (if c = nlChar then none else dotStarScan lit2 cs)
      (if lit2.isPrefixOf s then
        (let grp := takeClass (s.drop lit2.length)
         if grp.isEmpty then none else some grp)
       else none)

/-- `re.search` for `lit1.*lit2([\w\s,.'-]+)` (patterns
`what.*weather in (...)` and `how.*weather in (...)`). -/
def searchDotStar (lit1 lit2 : Str) : Str → Option Str
  | [] => none
  | s@(_ :: cs) =>
    if lit1.isPrefixOf s then
      match dotStarScan lit2 (s.drop lit1.length) with
      | some g => some g
      | none => searchDotStar lit1 lit2 cs
    else searchDotStar lit1 lit2 cs

/-- The three keywords of the reverse pattern, in alternation order. -/
def revLits : List Str := ["weather".toList, "temperature".toList, "forecast".toList]

/-- `\s+(weather|temperature|forecast)` at the head of `r`: at least one
whitespace character, then (after the maximal whitespace run — the
alternatives all start with a letter) one of the keywords. -/
def wsThenLit (r : Str) : Bool :=
  match r with
  | [] => false
  | c :: _ => isWs c && revLits.any (fun lit => lit.isPrefixOf (r.dropWhile isWs))

/-- Greedy backtracking for group 1 of the reverse pattern: try capture
lengths from `n` down to 1; `R` is the maximal class run at the match start,
`s` the suffix of the subject at the match start. -/
def tryLen (R s : Str) : Nat → Option Str
  | 0 => none
  | n + 1 => if wsThenLit (s.drop (n + 1)) then some (R.take (n + 1)) else tryLen R s n

/-- Attempt the reverse pattern at one position. -/
def revMatchAt (s : Str) : Option Str :=
  let R := takeClass s
  tryLen R s R.length

/-- `re.search(r"([\w\s,.'-]+)\s+(weather|temperature|forecast)", q)`:
leftmost position at which the pattern matches, capture = group 1. -/
def revSearch : Str → Option Str
  | [] => none
  | s@(_ :: cs) =>
    match revMatchAt s with
    | some g => some g
    | none => revSearch cs

/-! ### Stop-word substitution (`re.sub(r"\b(...)\b", "", loc)`) -/

/-- Stop words of the phrase/reverse branches, in alternation order:
`(the|at|in|for|near|th)`. -/
def stops6 : List Str :=
  ["the".toList, "at".toList, "in".toList, "for".toList, "near".toList, "th".toList]

/-- Stop words of the trailing-words fallback branch, in alternation order:
`(the|at|in|for|near|th|is|present)`. -/
def stops8 : List Str := stops6 ++ ["is".toList, "present".toList]

/-- First alternative of the stop-word alternation matching at the head of
`s` with a `\b` after it (all stop words end in a word character, so the
trailing boundary requires the next character to be a non-word character or
the end). -/
def firstStop (stops : List Str) (s : Str) : Option Str :=
  match stops with
  | [] => none
  | w :: ws =>
    if w.isPrefixOf s &&
        (match (s.drop w.length).head? with
         | none => true
         | some c => !isWordChar c) then
      some w
    else firstStop ws s

/-- One pass of `re.sub(r"\b(alt)\b", "", s)`.  `prev` records whether the
character before the current position is a word character (the leading `\b`:
all stop words begin with a word character, so a match needs `prev = false`).
`fuel` bounds recursion; it is always at least the length of `s`. -/
def subStopsGo (stops : List Str) : Nat → Bool → Str → Str
  | 0, _, s => s
  | _ + 1, _, [] => []
  | fuel + 1, prev, c :: cs =>
    if prev then c :: subStopsGo stops fuel (isWordChar c) cs
    else
      match firstStop stops (c :: cs) with
      | some w => subStopsGo stops fuel true ((c :: cs).drop w.length)
      | none => c :: subStopsGo stops fuel (isWordChar c) cs

/-- `re.sub(r"\b(alt)\b", "", s)` with the given alternation list. -/
def subStops (stops : List Str) (prev : Bool) (s : Str) : Str :=
  subStopsGo stops s.length prev s

/-! ### `extract_location` (`main.py`, lines 65–119) -/

/-- Normalization of a capture in the phrase-pattern and reverse-pattern
branches: `loc = m.group(1).strip()`, then
`loc = re.sub(r"\b(the|at|in|for|near|th)\b", "", loc).strip()`, then return
`loc.title()` if `len(loc) > 2`. -/
def normPR (g : Str) : Option Str :=
  let l1 := pyStrip g
  let l2 := pyStrip (subStops stops6 false l1)
  if 2 < l2.length then some (pyTitle l2) else none

/-- Normalization of a trailing-words fallback candidate:
`candidate = re.sub(r"\b(the|at|in|for|near|th|is|present)\b", "", candidate).strip()`,
then return `candidate.title()` if `len(candidate) > 2` (no pre-strip: the
candidate is a join of whitespace-free words). -/
def normFB (g : Str) : Option Str :=
  let l2 := pyStrip (subStops stops8 false g)
  if 2 < l2.length then some (pyTitle l2) else none

def pat1 : Str := "weather in ".toList
def pat2 : Str := "weather at ".toList
def pat3 : Str := "temperature in ".toList
def pat4 : Str := "forecast for ".toList
def pat5a : Str := "what".toList
def pat6a : Str := "how".toList
def patWI : Str := "weather in ".toList
def pat7 : Str := "current weather in ".toList
/-- `what's the weather in ` (apostrophe written via its code point). -/
def pat8 : Str := "what".toList ++ [apos] ++ "s the weather in ".toList
def pat9 : Str := "weather ".toList
def pat10 : Str := "temperature ".toList

/-- `" ".join(words)` for a list of words. -/
def joinSpace : List Str → Str
  | [] => []
  | [w] => w
  | w :: ws => w ++ ' ' :: joinSpace ws

/-- One size of the trailing-words fallback: take the last `n` words if there
are at least `n`, and normalize. -/
def trySize (words : List Str) (n : Nat) : Option Str :=
  if n ≤ words.length then normFB (joinSpace (words.drop (words.length - n)))
  else none

/-- Fallback branch of `extract_location`: try the trailing 3, 2, 1 words. -/
def fallbackLoc (q : Str) : Option Str :=
  let words := splitWs q
  oOr (trySize words 3) (oOr (trySize words 2) (trySize words 1))

/-- `extract_location(query)` from `main.py`: the ten phrase patterns in
order, then the reverse pattern, then the trailing-words fallback. -/
def extract_location (query : Str) : Option Str :=
  if query = [] then none
  else
    let q := pyLower (pyStrip query)
    oOr (oBind (searchLitClass pat1 q) normPR)
    (oOr (oBind (searchLitClass pat2 q) normPR)
    (oOr (oBind (searchLitClass pat3 q) normPR)
    (oOr (oBind (searchLitClass pat4 q) normPR)
    (oOr (oBind (searchDotStar pat5a patWI q) normPR)
    (oOr (oBind (searchDotStar pat6a patWI q) normPR)
    (oOr (oBind (searchLitClass pat7 q) normPR)
    (oOr (oBind (searchLitClass pat8 q) normPR)
    (oOr (oBind (searchLitClass pat9 q) normPR)
    (oOr (oBind (searchLitClass pat10 q) normPR)
    (oOr (oBind (revSearch q) normPR)
         (fallbackLoc q)))))))))))

/-- Weather-domain keywords of `is_weather_followup`. -/
def weatherTerms : List Str :=
  ["weather".toList, "temperature".toList, "forecast".toList, "rain".toList,
   "snow".toList, "wind".toList, "sunrise".toList, "sunset".toList]

/-- Temporal follow-up cues of `is_weather_followup`. -/
def followupTerms : List Str :=
  ["tomorrow".toList, "day after".toList, "next".toList, "again".toList,
   "same place".toList, "how about".toList, "what about".toList,
   "later".toList, "today".toList]

/-- `is_weather_followup(query)` from `main.py`. -/
def is_weather_followup (query : Str) : Bool :=
  if query = [] then false
  else
    let q := pyLower query
    weatherTerms.any (fun w => containsSub w q) ||
      followupTerms.any (fun w => containsSub w q)

/-- Location resolution in the `/chat/stream` handler (`main.py`, 330–333):
`location = extract_location(msg.message)`; if that is falsy and the query is
a weather follow-up, fall back to the chat's persisted `last_location`. -/
def resolveLocation (query : Str) (lastLocation : Option Str) : Option Str :=
  match extract_location query with
  | some l => some l
  | none => if is_weather_followup query then lastLocation else none

/-! ### Weather engine (`weather.py`)

Each cache tier is an association list `key ↦ (value, fetched_at)`.  A `put`
is modelled by consing a fresh entry (dictionary overwrite is observationally
a shadowing update for `get`).  The upstream HTTP call of each tier is an
oracle argument `upstream : Option value`: `none` stands for a missing API
key at call time is handled separately; for the call itself `none` covers a
non-200 status, an empty geocoding result, a timeout or any exception —
`weather.py` collapses all of these to `None`. -/

/-- `get` on a cache tier: the most recent entry for a key, with timestamp. -/
def alGet [DecidableEq κ] : List (κ × α × ℚ) → κ → Option (α × ℚ)
  | [], _ => none
  | (k', v) :: rest, k => if k = k' then some v else alGet rest k

/-- `cache[key] = (value, now)`: unconditional overwrite. -/
def alPut [DecidableEq κ] (c : List (κ × α × ℚ)) (k : κ) (v : α × ℚ) : List (κ × α × ℚ) :=
  (k, v) :: c

/-- `GEO_TTL = 24 * 3600` seconds. -/
def GEO_TTL : ℚ := 24 * 3600
/-- `CURRENT_TTL = 5 * 60` seconds. -/
def CURRENT_TTL : ℚ := 5 * 60
/-- `FORECAST_TTL = 10 * 60` seconds. -/
def FORECAST_TTL : ℚ := 10 * 60
/-- `AQI_TTL = 60 * 60` seconds. -/
def AQI_TTL : ℚ := 60 * 60

/-- Geocoding result dictionary built in `geocode_location`; every field may
be `None` if the provider omitted it. -/
structure GeoResult where
  name : Option Str
  lat : Option ℚ
  lon : Option ℚ
  country : Option Str
  state : Option Str
deriving DecidableEq

/-- Current-conditions dictionary built in `_fetch_current_weather_by_coord`
(the `provider`/`raw` passthrough fields are omitted: they are opaque copies
of the provider response). -/
structure CurrentRes where
  name : Option Str
  description : Option Str
  temp_c : Option ℚ
  feels_like_c : Option ℚ
  humidity : Option ℚ
  pressure : Option ℚ
  wind_speed_m_s : Option ℚ
  clouds_pct : Option ℚ
deriving DecidableEq

/-- Air-quality dictionary built in `_fetch_aqi_by_coord`; `components` is an
opaque pollutant→concentration mapping. -/
structure AqiRes where
  aqi_index : Option ℕ
  components : List (Str × ℚ)
deriving DecidableEq

/-- One raw 3-hourly forecast sample from the provider list (`d["list"]`):
timestamp plus the four fields read by the aggregation. -/
structure FcItem where
  dt : ℕ
  temp : Option ℚ
  desc : Option Str
  wind : Option ℚ
  hum : Option ℚ
deriving DecidableEq

/-- One aggregated day produced by `_fetch_forecast_by_coord`.  The date
`time.strftime("%Y-%m-%d", time.gmtime(ts))` is modelled as the epoch-day
number `ts / 86400`: for the provider's nonnegative 1970–9999 timestamps the
map day-number → date-string is strictly monotone, so lexicographic sorting
of the strings equals numeric sorting of the day numbers. -/
structure DayAgg where
  date : ℕ
  temp_min_c : Option ℚ
  temp_max_c : Option ℚ
  temp_avg_c : Option ℚ
  common_description : Option Str
  wind_avg_m_s : Option ℚ
  humidity_avg : Option ℚ
deriving DecidableEq

/-- UTC day bucket of a sample. -/
def dayOf (it : FcItem) : ℕ := it.dt / 86400

/-- The samples of one day, in provider order (`slot` lists). -/
def itemsOfDay (items : List FcItem) (d : ℕ) : List FcItem :=
  items.filter (fun it => dayOf it = d)

/-- Non-null temperatures of a day (`[t for t in e["temps"] if t is not None]`). -/
def tempsOfDay (items : List FcItem) (d : ℕ) : List ℚ :=
  (itemsOfDay items d).filterMap (fun it => it.temp)

/-- The day's description list (`e["desc"]`, nulls kept). -/
def descsOfDay (items : List FcItem) (d : ℕ) : List (Option Str) :=
  (itemsOfDay items d).map (fun it => it.desc)

/-- Non-null wind speeds of a day. -/
def windsOfDay (items : List FcItem) (d : ℕ) : List ℚ :=
  (itemsOfDay items d).filterMap (fun it => it.wind)

/-- Non-null humidities of a day. -/
def humsOfDay (items : List FcItem) (d : ℕ) : List ℚ :=
  (itemsOfDay items d).filterMap (fun it => it.hum)

/-- Python `min(l)` (empty handled by the caller). -/
def listMin : List ℚ → Option ℚ
  | [] => none
  | t :: ts => some (ts.foldl (fun b y => if y < b then y else b) t)

/-- Python `max(l)`. -/
def listMax : List ℚ → Option ℚ
  | [] => none
  | t :: ts => some (ts.foldl (fun b y => if b < y then y else b) t)

/-- `sum(l)/len(l) if l else None`. -/
def listAvg (l : List ℚ) : Option ℚ :=
  if l = [] then none else some (l.sum / l.length)

/-- Python `max(iterable, key=counts)` over a concrete iteration order: the
first element attaining the maximal key (later elements replace the current
best only on a strictly greater count). -/
def pyMaxByCount (counts : Option Str → ℕ) : List (Option Str) → Option Str
  | [] => none
  | x :: xs => xs.foldl (fun best y => if counts best < counts y then y else best) x

/-- `max(set(e["desc"]), key=e["desc"].count) if e["desc"] else None`.
Iterating a Python `set` of strings visits each distinct element once in an
order determined by (randomized) string hashing; that order is the
`setOrder` parameter, constrained in the theorems to be an enumeration
(permutation) of the distinct elements. -/
def commonDesc (setOrder : List (Option Str) → List (Option Str)) (l : List (Option Str)) :
    Option Str :=
  match l with
  | [] => none
  | _ => pyMaxByCount (fun y => l.count y) (setOrder l)

/-- The aggregated record of day `d` (body of the `result.append` call). -/
def mkDayAgg (setOrder : List (Option Str) → List (Option Str)) (items : List FcItem)
    (d : ℕ) : DayAgg :=
  { date := d
    temp_min_c := listMin (tempsOfDay items d)
    temp_max_c := listMax (tempsOfDay items d)
    temp_avg_c := listAvg (tempsOfDay items d)
    common_description := commonDesc setOrder (descsOfDay items d)
    wind_avg_m_s := listAvg (windsOfDay items d)
    humidity_avg := listAvg (humsOfDay items d) }

/-- Insertion into a sorted list of day numbers. -/
def insertNat (a : ℕ) : List ℕ → List ℕ
  | [] => [a]
  | b :: bs => if a ≤ b then a :: b :: bs else b :: insertNat a bs

/-- `sorted(keys)` (insertion sort; the keys are distinct). -/
def sortNat : List ℕ → List ℕ
  | [] => []
  | a :: as => insertNat a (sortNat as)

/-- `sorted(daily.keys())[:days]`: the distinct day buckets, ascending,
truncated. -/
def emittedDays (items : List FcItem) (days : ℕ) : List ℕ :=
  (sortNat (items.map dayOf).dedup).take days

/-- Daily aggregation loop of `_fetch_forecast_by_coord` (lines 153–182). -/
def aggregateForecast (setOrder : List (Option Str) → List (Option Str))
    (items : List FcItem) (days : ℕ) : List DayAgg :=
  (emittedDays items days).map (mkDayAgg setOrder items)

/-- Coordinate rounding for cache keys (`f"{lat:.4f}"`); Python formats the
binary float with round-half-even, modelled here as rounding the rational to
4 decimal places. -/
def round4 (q : ℚ) : ℚ := round (q * 10000) / 10000

/-- `geocode_location(location)` (`weather.py`, 42–80).  Returns
(result, new geo cache, whether the upstream geocoding API was called). -/
def geocode_location (hasKey : Bool) (upstream : Option GeoResult)
    (cache : List (Str × GeoResult × ℚ)) (location : Str) (now : ℚ) :
    Option GeoResult × List (Str × GeoResult × ℚ) × Bool :=
  if hasKey = false then (none, cache, false)
  else
    let key := pyLower (pyStrip location)
    match alGet cache key with
    | some (v, t) =>
      if now - t < GEO_TTL then (some v, cache, false)
      else
        match upstream with
        | none => (none, cache, true)
        | some r => (some r, alPut cache key (r, now), true)
    | none =>
      match upstream with
      | none => (none, cache, true)
      | some r => (some r, alPut cache key (r, now), true)

/-- `_fetch_current_weather_by_coord(lat, lon)` (`weather.py`, 86–124). -/
def fetch_current (hasKey : Bool) (upstream : Option CurrentRes)
    (cache : List ((ℚ × ℚ) × CurrentRes × ℚ)) (lat lon : ℚ) (now : ℚ) :
    Option CurrentRes × List ((ℚ × ℚ) × CurrentRes × ℚ) × Bool :=
  if hasKey = false then (none, cache, false)
  else
    let key := (round4 lat, round4 lon)
    match alGet cache key with
    | some (v, t) =>
      if now - t < CURRENT_TTL then (some v, cache, false)
      else
        match upstream with
        | none => (none, cache, true)
        | some r => (some r, alPut cache key (r, now), true)
    | none =>
      match upstream with
      | none => (none, cache, true)
      | some r => (some r, alPut cache key (r, now), true)

/-- `_fetch_forecast_by_coord(lat, lon, days)` (`weather.py`, 130–188): the
upstream oracle yields the raw `d["list"]` samples, which are aggregated and
then cached. -/
def fetch_forecast (hasKey : Bool) (upstream : Option (List FcItem))
    (setOrder : List (Option Str) → List (Option Str))
    (cache : List ((ℚ × ℚ × ℕ) × List DayAgg × ℚ)) (lat lon : ℚ) (days : ℕ) (now : ℚ) :
    Option (List DayAgg) × List ((ℚ × ℚ × ℕ) × List DayAgg × ℚ) × Bool :=
  if hasKey = false then (none, cache, false)
  else
    let key := (round4 lat, round4 lon, days)
    match alGet cache key with
    | some (v, t) =>
      if now - t < FORECAST_TTL then (some v, cache, false)
      else
        match upstream with
        | none => (none, cache, true)
        | some items =>
          let res := aggregateForecast setOrder items days
          (some res, alPut cache key (res, now), true)
    | none =>
      match upstream with
      | none => (none, cache, true)
      | some items =>
        let res := aggregateForecast setOrder items days
        (some res, alPut cache key (res, now), true)

/-- `_fetch_aqi_by_coord(lat, lon)` (`weather.py`, 194–228). -/
def fetch_aqi (hasKey : Bool) (upstream : Option AqiRes)
    (cache : List ((ℚ × ℚ) × AqiRes × ℚ)) (lat lon : ℚ) (now : ℚ) :
    Option AqiRes × List ((ℚ × ℚ) × AqiRes × ℚ) × Bool :=
  if hasKey = false then (none, cache, false)
  else
    let key := (round4 lat, round4 lon)
    match alGet cache key with
    | some (v, t) =>
      if now - t < AQI_TTL then (some v, cache, false)
      else
        match upstream with
        | none => (none, cache, true)
        | some r => (some r, alPut cache key (r, now), true)
    | none =>
      match upstream with
      | none => (none, cache, true)
      | some r => (some r, alPut cache key (r, now), true)

/-- The immutable weather packet returned by `build_weather_packet`. -/
structure WeatherPacket where
  location : Str
  country : Option Str
  state : Option Str
  lat : ℚ
  lon : ℚ
  current : Option CurrentRes
  forecast : Option (List DayAgg)
  aqi : Option AqiRes
  fetched_at : ℚ
deriving DecidableEq

/-- The four process-wide cache tiers. -/
structure Caches where
  geo : List (Str × GeoResult × ℚ)
  cur : List ((ℚ × ℚ) × CurrentRes × ℚ)
  fc : List ((ℚ × ℚ × ℕ) × List DayAgg × ℚ)
  aqi : List ((ℚ × ℚ) × AqiRes × ℚ)

/-- `build_weather_packet(location, forecast_days)` (`weather.py`, 234–260):
geocode; bail out to `None` if that fails or lacks a coordinate; otherwise
run the three sub-fetches (each with its own oracle and cache tier) and
assemble the packet.  `geo.get("name") or location` falls back to the query
string when the geocoded name is null or empty. -/
def build_weather_packet (hasKey : Bool) (oGeo : Option GeoResult)
    (oCur : Option CurrentRes) (oFc : Option (List FcItem)) (oAqi : Option AqiRes)
    (setOrder : List (Option Str) → List (Option Str)) (caches : Caches)
    (location : Str) (days : ℕ) (now : ℚ) : Option WeatherPacket × Caches :=
  if location = [] then (none, caches)
  else
    let rg := geocode_location hasKey oGeo caches.geo location now
    match rg.1 with
    | none => (none, { caches with geo := rg.2.1 })
    | some geo =>
      match geo.lat, geo.lon with
      | some la, some lo =>
        let rc := fetch_current hasKey oCur caches.cur la lo now
        let rf := fetch_forecast hasKey oFc setOrder caches.fc la lo days now
        let ra := fetch_aqi hasKey oAqi caches.aqi la lo now
        (some { location := (match geo.name with
                             | some n => if n = [] then location else n
                             | none => location)
                country := geo.country
                state := geo.state
                lat := la
                lon := lo
                current := rc.1
                forecast := rf.1
                aqi := ra.1
                fetched_at := now },
         { geo := rg.2.1, cur := rc.2.1, fc := rf.2.1, aqi := ra.2.1 })
      | _, _ => (none, { caches with geo := rg.2.1 })

/-! ### Prompt assembly (`format_packet_for_prompt`, `get_weather_summary_for_prompt`
in `weather.py`; message-list construction in the `/chat/stream` handler of
`main.py`, lines 375–403).

Number rendering (Python's `f"{x}"` on floats/ints) is serialization-opaque
and passed in as `ShowFns`.  The constructed dictionaries always contain
every key, so the `dict.get(k, 'N/A')` defaults never fire: a null field is
rendered as the string `None`, exactly as in Python. -/

/-- Opaque numeral rendering for the f-strings. -/
structure ShowFns where
  q : ℚ → Str
  n : ℕ → Str

/-- Render an optional string field (`None` for nulls). -/
def showOptStr (o : Option Str) : Str :=
  match o with
  | some s => s
  | none => "None".toList

/-- Render an optional rational field. -/
def showOptQ (sf : ShowFns) (o : Option ℚ) : Str :=
  match o with
  | some x => sf.q x
  | none => "None".toList

/-- Render an optional natural field. -/
def showOptN (sf : ShowFns) (o : Option ℕ) : Str :=
  match o with
  | some x => sf.n x
  | none => "None".toList

/-- `f"{loc}{', ' + country if country else ''}"`. -/
def locLine (p : WeatherPacket) : Str :=
  p.location ++
    (match p.country with
     | some c => if c = [] then [] else ", ".toList ++ c
     | none => [])

/-- `f"Current: {desc}, {temp}°C (feels like {feels}°C)"`. -/
def curLine1 (sf : ShowFns) (cur : CurrentRes) : Str :=
  "Current: ".toList ++ showOptStr cur.description ++ ", ".toList ++
    showOptQ sf cur.temp_c ++ "°C (feels like ".toList ++
    showOptQ sf cur.feels_like_c ++ "°C)".toList

/-- `f"Humidity: {h}% | Wind: {w} m/s | Clouds: {c}%"`. -/
def curLine2 (sf : ShowFns) (cur : CurrentRes) : Str :=
  "Humidity: ".toList ++ showOptQ sf cur.humidity ++ "% | Wind: ".toList ++
    showOptQ sf cur.wind_speed_m_s ++ " m/s | Clouds: ".toList ++
    showOptQ sf cur.clouds_pct ++ "%".toList

/-- `{1:"Good",...}.get(aqi_val, "Unknown")`. -/
def aqiText (v : Option ℕ) : Str :=
  match v with
  | some 1 => "Good".toList
  | some 2 => "Fair".toList
  | some 3 => "Moderate".toList
  | some 4 => "Poor".toList
  | some 5 => "Very Poor".toList
  | _ => "Unknown".toList

/-- `f"AQI: {aqi_val} ({aqi_text})"`. -/
def aqiLine (sf : ShowFns) (a : AqiRes) : Str :=
  "AQI: ".toList ++ showOptN sf a.aqi_index ++ " (".toList ++ aqiText a.aqi_index ++ ")".toList

/-- `f"{date}: {desc}, {min}°C - {max}°C"` for one forecast day. -/
def dayLine (sf : ShowFns) (d : DayAgg) : Str :=
  sf.n d.date ++ ": ".toList ++ showOptStr d.common_description ++ ", ".toList ++
    showOptQ sf d.temp_min_c ++ "°C - ".toList ++ showOptQ sf d.temp_max_c ++ "°C".toList

/-- `" | ".join(lines)`. -/
def joinPipe : List Str → Str
  | [] => []
  | [a] => a
  | a :: rest => a ++ " | ".toList ++ joinPipe rest

/-- `format_packet_for_prompt(packet)` (`weather.py`, 266–301) for a non-null
packet: location line, then (if current present) two current-conditions
lines, then (if aqi present) the AQI line, then up to three forecast lines. -/
def format_packet_for_prompt (sf : ShowFns) (p : WeatherPacket) : Str :=
  joinPipe
    (locLine p ::
      ((match p.current with
        | some cur => [curLine1 sf cur, curLine2 sf cur]
        | none => []) ++
       (match p.aqi with
        | some a => [aqiLine sf a]
        | none => []) ++
       ((match p.forecast with
         | some fc => fc
         | none => []).take 3).map (dayLine sf)))

/-- `get_weather_summary_for_prompt(location, forecast_days)` (`weather.py`,
307–315), applied to the packet produced by `build_weather_packet`: `None`
if there is no packet, else the packet and its one-line summary. -/
def get_weather_summary_for_prompt (sf : ShowFns) (pkt : Option WeatherPacket) :
    Option (WeatherPacket × Str) :=
  match pkt with
  | none => none
  | some p => some (p, format_packet_for_prompt sf p)

/-- A role-tagged chat message. -/
structure ChatMsg where
  role : Str
  content : Str
deriving DecidableEq

def systemRole : Str := "system".toList
def userRole : Str := "user".toList

/-- The fixed anti-hallucination system prompt of the `/chat/stream` handler
(`main.py`, 360–373). -/
def systemPromptText : Str :=
  ("\nYou are KEN ASSISTANT.\n\nIMPORTANT RULES FOR WEATHER ANSWERS:\n" ++
   "1. When WEATHER_PACKET_JSON is provided, you MUST use ONLY that data.\n" ++
   "2. NEVER guess, assume, or fabricate any weather info.\n" ++
   "3. NEVER use AccuWeather, Google, or any external sources.\n" ++
   "4. ONLY use data explicitly given inside WEATHER_PACKET_JSON.\n" ++
   "5. If something is missing in the packet, say \"Weather data unavailable\".\n" ++
   "6. Do NOT invent dates, temperatures, humidity, wind speeds, or conditions.\n" ++
   "7. Your weather response MUST be based strictly on WEATHER_PACKET_JSON and/or " ++
   "the human-readable Weather Summary.\n\nRespond clearly, accurately, and in Markdown format.\n").toList

/-- `f"Weather summary for {location}: {summary}"`. -/
def summaryContent (location summary : Str) : Str :=
  "Weather summary for ".toList ++ location ++ ": ".toList ++ summary

/-- `"WEATHER_PACKET_JSON:\n```json\n" + packet_json + "\n```"`. -/
def fenceContent (packetJson : Str) : Str :=
  "WEATHER_PACKET_JSON:\n```json\n".toList ++ packetJson ++ "\n```".toList

/-- Message-list construction of the `/chat/stream` handler (`main.py`,
380–403): system prompt; then, when `weather_summary and weather_packet` are
both truthy, the human-readable summary message and the JSON-fenced packet
message; then the stored history rows `(message, role)` in chronological
order; then the current user message.  `json.dumps` is the opaque `dump`
parameter (the `indent=2` retry without indent changes only the rendering). -/
def buildMessages (location : Str) (ws : Option Str) (wp : Option WeatherPacket)
    (dump : WeatherPacket → Str) (history : List (Str × Str)) (userMsg : Str) :
    List ChatMsg :=
  ({ role := systemRole, content := systemPromptText } ::
    (match ws, wp with
     | some s, some p =>
       if s = [] then []
       else [{ role := systemRole, content := summaryContent location s },
             { role := systemRole, content := fenceContent (dump p) }]
     | _, _ => []) ++
    history.map (fun mr => { role := mr.2, content := mr.1 })) ++
  [{ role := userRole, content := userMsg }]

/-- The whole weather-injection path of one `/chat/stream` turn: run
`get_weather_summary_for_prompt` on the packet (if a location resolved and
the engine produced one) and assemble the messages. -/
def streamMessages (sf : ShowFns) (location : Str) (pkt : Option WeatherPacket)
    (dump : WeatherPacket → Str) (history : List (Str × Str)) (userMsg : Str) :
    List ChatMsg :=
  match get_weather_summary_for_prompt sf pkt with
  | none => buildMessages location none none dump history userMsg
  | some (p, s) => buildMessages location (some s) (some p) dump history userMsg

/-! ### Stream relay (`generate` in `main.py`, lines 406–472)

A chunk is the decoded text of one `resp.aiter_bytes()` item.  `parse`
models `json.loads` plus the `j.get("message",{}).get("content","")`
extraction: `some tok` when the line parses (token possibly empty), `none`
when parsing raises.  `disc i` is the result of the
`await request.is_disconnected()` check before processing chunk `i`;
`errAt i` is true when the transport raises while awaiting chunk `i`
(index `chunks.length` = the final end-of-stream read). -/

/-- Per-line processing: skip blank lines; a parsed nonempty token (or the
raw line on parse failure) is appended to the accumulator and yielded. -/
def processLine (parse : Str → Option Str) (st : Str × List Str) (line : Str) :
    Str × List Str :=
  if pyStrip line = [] then st
  else
    match parse line with
    | some tok => if tok = [] then st else (st.1 ++ tok, st.2 ++ [tok])
    | none => (st.1 ++ line, st.2 ++ [line])

/-- Process all newline-delimited lines of one chunk. -/
def processChunk (parse : Str → Option Str) (st : Str × List Str) (chunk : Str) :
    Str × List Str :=
  (splitNl chunk).foldl (processLine parse) st

/-- Process a list of chunks starting from an accumulator state
(`full_response`, tokens yielded so far). -/
def processAll (parse : Str → Option Str) (chunks : List Str) : Str × List Str :=
  chunks.foldl (processChunk parse) ([], [])

/-- `"Network error: ..."` / `"Unexpected error: ..."` token for a transport
fault, with the opaque exception text. -/
def netErrToken (msg : Str) : Str := "Network error: ".toList ++ msg

/-- The streaming loop: before chunk `i`, a transport fault emits the error
token and returns (nothing persisted); a detected disconnect sets
`cancelled` and breaks (nothing persisted); otherwise the chunk is processed
and its tokens yielded.  When the body is exhausted without fault or
disconnect, the accumulated text is returned for persistence. -/
def runRelay (parse : Str → Option Str) (disc errAt : ℕ → Bool) (errMsg : Str) :
    List Str → ℕ → (Str × List Str) → List Str × Option Str
  | [], i, st => if errAt i then (st.2 ++ [netErrToken errMsg], none) else (st.2, some st.1)
  | ch :: rest, i, st =>
    if errAt i then (st.2 ++ [netErrToken errMsg], none)
    else if disc i then (st.2, none)
    else runRelay parse disc errAt errMsg rest (i + 1) (processChunk parse st ch)

/-- `f"❌ LLM model error: {txt}"` for a non-200 response from the model
backend. -/
def modelErrToken (txt : Str) : Str := "❌ LLM model error: ".toList ++ txt

/-- The `generate()` async generator (`main.py`, 406–472): returns the
tokens yielded to the client, and the final text persisted as the assistant
message (`none` when nothing is persisted — non-200 status, transport fault,
or client disconnect). -/
def generate (parse : Str → Option Str) (disc errAt : ℕ → Bool) (errMsg : Str)
    (status : ℕ) (statusText : Str) (chunks : List Str) : List Str × Option Str :=
  if status ≠ 200 then ([modelErrToken statusText], none)
  else runRelay parse disc errAt errMsg chunks 0 ([], [])

/-! ### Spec-side definitions (for stating claims as written)

These two definitions follow the specification's wording, not the source;
they exist only to compare the spec's claims against the embedded code. -/

/-- The spec's single normalization step (§4.1): strip the full stop-word set
`{the, at, in, for, near, th, is, present}`, trim whitespace, reject if the
result has length ≤ 2, then title-case.  Follows the spec's words; the code
applies this full set only in the fallback branch. -/
def specNormalize (g : Str) : Option Str :=
  let l2 := pyStrip (subStops stops8 false (pyStrip g))
  if 2 < l2.length then some (pyTitle l2) else none

/-- Distinct elements in first-occurrence order. -/
def firstDedup (l : List (Option Str)) : List (Option Str) :=
  l.foldl (fun acc x => if x ∈ acc then acc else acc ++ [x]) []

/-- The spec's "statistical mode of per-entry descriptions (ties broken by
first-encountered value)".  Follows the spec's words. -/
def specFirstMode (l : List (Option Str)) : Option Str :=
  match l with
  | [] => none
  | _ => pyMaxByCount (fun y => l.count y) (firstDedup l)

/-! ## Toolkit lemmas -/

theorem oOr_eq_some {α : Type} {a b : Option α} {l : α} (h : oOr a b = some l) :
    a = some l ∨ (a = none ∧ b = some l) := by
  cases a <;> simp_all [oOr]

theorem oOr_eq_none {α : Type} {a b : Option α} (h : oOr a b = none) :
    a = none ∧ b = none := by
  cases a <;> simp_all [oOr]

theorem oBind_eq_some {α β : Type} {a : Option α} {f : α → Option β} {l : β}
    (h : oBind a f = some l) : ∃ g, a = some g ∧ f g = some l := by
  cases a <;> simp_all [oBind]

theorem oBind_none {α β : Type} (f : α → Option β) : oBind none f = none := rfl

theorem pyTitleGo_length (b : Bool) (s : Str) : (pyTitleGo b s).length = s.length := by
  induction s generalizing b with
  | nil => rfl
  | cons c cs ih => simp [pyTitleGo, ih]

theorem pyTitle_length (s : Str) : (pyTitle s).length = s.length :=
  pyTitleGo_length false s

theorem normPR_shape {g l : Str} (h : normPR g = some l) :
    2 < l.length ∧ ∃ s, l = pyTitle s := by
  simp only [normPR] at h
  split at h
  · obtain rfl : pyTitle (pyStrip (subStops stops6 false (pyStrip g))) = l :=
      Option.some.inj h
    refine ⟨?_, _, rfl⟩
    rwa [pyTitle_length]
  · exact absurd h (by simp)

theorem normFB_shape {g l : Str} (h : normFB g = some l) :
    2 < l.length ∧ ∃ s, l = pyTitle s := by
  simp only [normFB] at h
  split at h
  · obtain rfl : pyTitle (pyStrip (subStops stops8 false g)) = l := Option.some.inj h
    refine ⟨?_, _, rfl⟩
    rwa [pyTitle_length]
  · exact absurd h (by simp)

/-- Every location produced by `extract_location` went through the
normalization of the phrase/reverse branches (`normPR`, six stop words) or
of the fallback branch (`normFB`, eight stop words). -/
theorem extract_location_shape {q l : Str} (h : extract_location q = some l) :
    (∃ g, normPR g = some l) ∨ (∃ g, normFB g = some l) := by
  by_cases hq : q = []
  · simp [extract_location, hq] at h
  · simp only [extract_location, if_neg hq] at h
    rcases oOr_eq_some h with h | ⟨-, h⟩
    · exact Or.inl ⟨_, (oBind_eq_some h).choose_spec.2⟩
    rcases oOr_eq_some h with h | ⟨-, h⟩
    · exact Or.inl ⟨_, (oBind_eq_some h).choose_spec.2⟩
    rcases oOr_eq_some h with h | ⟨-, h⟩
    · exact Or.inl ⟨_, (oBind_eq_some h).choose_spec.2⟩
    rcases oOr_eq_some h with h | ⟨-, h⟩
    · exact Or.inl ⟨_, (oBind_eq_some h).choose_spec.2⟩
    rcases oOr_eq_some h with h | ⟨-, h⟩
    · exact Or.inl ⟨_, (oBind_eq_some h).choose_spec.2⟩
    rcases oOr_eq_some h with h | ⟨-, h⟩
    · exact Or.inl ⟨_, (oBind_eq_some h).choose_spec.2⟩
    rcases oOr_eq_some h with h | ⟨-, h⟩
    · exact Or.inl ⟨_, (oBind_eq_some h).choose_spec.2⟩
    rcases oOr_eq_some h with h | ⟨-, h⟩
    · exact Or.inl ⟨_, (oBind_eq_some h).choose_spec.2⟩
    rcases oOr_eq_some h with h | ⟨-, h⟩
    · exact Or.inl ⟨_, (oBind_eq_some h).choose_spec.2⟩
    rcases oOr_eq_some h with h | ⟨-, h⟩
    · exact Or.inl ⟨_, (oBind_eq_some h).choose_spec.2⟩
    rcases oOr_eq_some h with h | ⟨-, h⟩
    · exact Or.inl ⟨_, (oBind_eq_some h).choose_spec.2⟩
    · simp only [fallbackLoc] at h
      rcases oOr_eq_some h with h | ⟨-, h⟩
      · simp only [trySize] at h
        split at h
        · exact Or.inr ⟨_, h⟩
        · exact absurd h (by simp)
      rcases oOr_eq_some h with h | ⟨-, h⟩
      · simp only [trySize] at h
        split at h
        · exact Or.inr ⟨_, h⟩
        · exact absurd h (by simp)
      · simp only [trySize] at h
        split at h
        · exact Or.inr ⟨_, h⟩
        · exact absurd h (by simp)

/-! ## Stream relay lemmas (C1) -/

theorem runRelay_complete (parse : Str → Option Str) (disc errAt : ℕ → Bool) (errMsg : Str) :
    ∀ (chunks : List Str) (i : ℕ) (st : Str × List Str),
      (∀ j, j < chunks.length → disc (i + j) = false) →
      (∀ j, j ≤ chunks.length → errAt (i + j) = false) →
      runRelay parse disc errAt errMsg chunks i st =
        ((chunks.foldl (processChunk parse) st).2,
         some (chunks.foldl (processChunk parse) st).1) := by
  intro chunks
  induction chunks with
  | nil =>
    intro i st _ herr
    have h0 : errAt i = false := by simpa using herr 0 (by simp)
    simp [runRelay, h0]
  | cons ch rest ih =>
    intro i st hdisc herr
    have h0 : errAt i = false := by simpa using herr 0 (by simp)
    have h1 : disc i = false := by simpa using hdisc 0 (by simp)
    simp only [runRelay, h0, h1, Bool.false_eq_true, if_false, List.foldl_cons]
    exact ih (i + 1) (processChunk parse st ch)
      (fun j hj => by simpa [Nat.add_assoc, Nat.add_comm 1 j] using hdisc (j + 1) (by simpa using hj))
      (fun j hj => by simpa [Nat.add_assoc, Nat.add_comm 1 j] using herr (j + 1) (by simpa using hj))

theorem runRelay_cancel (parse : Str → Option Str) (disc errAt : ℕ → Bool) (errMsg : Str) :
    ∀ (chunks : List Str) (k i : ℕ) (st : Str × List Str),
      (∀ j, j ≤ k → errAt (i + j) = false) →
      (∀ j, j < k → disc (i + j) = false) →
      disc (i + k) = true →
      k < chunks.length →
      runRelay parse disc errAt errMsg chunks i st =
        (((chunks.take k).foldl (processChunk parse) st).2, none) := by
  intro chunks
  induction chunks with
  | nil => intro k i st _ _ _ hk; simp at hk
  | cons ch rest ih =>
    intro k i st herr hdisc hk hlen
    have h0 : errAt i = false := by simpa using herr 0 (by simp)
    cases k with
    | zero =>
      have h1 : disc i = true := by simpa using hk
      simp [runRelay, h0, h1]
    | succ k' =>
      have h1 : disc i = false := by simpa using hdisc 0 (by simp)
      simp only [runRelay, h0, h1, Bool.false_eq_true, if_false, List.take_succ_cons,
        List.foldl_cons]
      exact ih k' (i + 1) (processChunk parse st ch)
        (fun j hj => by
          simpa [Nat.add_assoc, Nat.add_comm 1 j] using herr (j + 1) (by omega))
        (fun j hj => by
          simpa [Nat.add_assoc, Nat.add_comm 1 j] using hdisc (j + 1) (by omega))
        (by simpa [Nat.add_assoc, Nat.add_comm 1 k'] using hk)
        (by simpa using hlen)

/-- C1: during a streaming turn (200 response), if the client disconnect is
detected at the boundary before chunk `k`, the relay emits exactly the tokens
of the first `k` chunks (already delivered to the client) and persists
nothing; if the body is exhausted with no disconnect (and no transport
fault), the relay emits all tokens and the accumulated text is persisted as
the assistant message. -/
theorem stream_cancel_no_persist (parse : Str → Option Str) (disc errAt : ℕ → Bool)
    (errMsg statusText : Str) (chunks : List Str) (k : ℕ) :
    ((∀ j, j ≤ k → errAt j = false) → (∀ j, j < k → disc j = false) →
      disc k = true → k < chunks.length →
      generate parse disc errAt errMsg 200 statusText chunks =
        ((processAll parse (chunks.take k)).2, none)) ∧
    ((∀ j, j ≤ chunks.length → errAt j = false) →
      (∀ j, j < chunks.length → disc j = false) →
      generate parse disc errAt errMsg 200 statusText chunks =
        ((processAll parse chunks).2, some (processAll parse chunks).1)) := by
  constructor
  · intro herr hdisc hk hlen
    have := runRelay_cancel parse disc errAt errMsg chunks k 0 ([], [])
      (fun j hj => by simpa using herr j hj)
      (fun j hj => by simpa using hdisc j hj)
      (by simpa using hk) hlen
    simpa [generate, processAll] using this
  · intro herr hdisc
    have := runRelay_complete parse disc errAt errMsg chunks 0 ([], [])
      (fun j hj => by simpa using hdisc j hj)
      (fun j hj => by simpa using herr j hj)
    simpa [generate, processAll] using this

/-- Witness for C1: with ten one-line chunks and a disconnect detected before
chunk 3, exactly the first three tokens are emitted and nothing is
persisted; without a disconnect all ten tokens are emitted and the
concatenation is persisted. -/
theorem stream_cancel_no_persist_witness :
    generate (fun l => some l) (fun i => decide (3 ≤ i)) (fun _ => false) []
        200 [] (["t0".toList, "t1".toList, "t2".toList, "t3".toList, "t4".toList,
          "t5".toList, "t6".toList, "t7".toList, "t8".toList, "t9".toList]) =
      (["t0".toList, "t1".toList, "t2".toList], none) ∧
    generate (fun l => some l) (fun _ => false) (fun _ => false) []
        200 [] (["t0".toList, "t1".toList, "t2".toList, "t3".toList, "t4".toList,
          "t5".toList, "t6".toList, "t7".toList, "t8".toList, "t9".toList]) =
      (["t0".toList, "t1".toList, "t2".toList, "t3".toList, "t4".toList,
        "t5".toList, "t6".toList, "t7".toList, "t8".toList, "t9".toList],
       some ("t0t1t2t3t4t5t6t7t8t9".toList)) := by
  constructor
  · exact ((stream_cancel_no_persist (fun l => some l) (fun i => decide (3 ≤ i))
      (fun _ => false) [] [] _ 3).1 (fun j _ => rfl) (fun j hj => by
        simp; omega) (by decide) (by decide)).trans (by decide)
  · exact ((stream_cancel_no_persist (fun l => some l) (fun _ => false)
      (fun _ => false) [] [] _ 3).2 (fun j _ => rfl) (fun j _ => rfl)).trans (by decide)

/-! ## Prompt assembly lemmas (C2) -/

theorem locLine_ne_nil {p : WeatherPacket} (h : p.location ≠ []) : locLine p ≠ [] := by
  simp only [locLine]
  exact fun hc => h (List.append_eq_nil.mp hc).1

theorem joinPipe_cons_ne_nil {a : Str} {rest : List Str} (h : a ≠ []) :
    joinPipe (a :: rest) ≠ [] := by
  cases rest with
  | nil => simpa [joinPipe] using h
  | cons b bs =>
    simp only [joinPipe]
    intro hc
    exact h (List.append_eq_nil.mp (List.append_eq_nil.mp hc).1).1

theorem format_packet_ne_nil (sf : ShowFns) {p : WeatherPacket} (h : p.location ≠ []) :
    format_packet_for_prompt sf p ≠ [] :=
  joinPipe_cons_ne_nil (locLine_ne_nil h)

/-- C2: the assembled message list always starts with the anti-hallucination
system block and ends with the current user message; with no packet the list
is exactly instruction ∘ history ∘ user; with a packet it is exactly
instruction, the one-line summary system message, the JSON-fenced packet
system message, then the full history in order with roles preserved, then
the user message. -/
theorem prompt_message_order (sf : ShowFns) (location : Str) (dump : WeatherPacket → Str)
    (history : List (Str × Str)) (userMsg : Str) :
    (∀ pkt : Option WeatherPacket,
      (streamMessages sf location pkt dump history userMsg).head? =
        some { role := systemRole, content := systemPromptText } ∧
      (streamMessages sf location pkt dump history userMsg).getLast? =
        some { role := userRole, content := userMsg }) ∧
    (streamMessages sf location none dump history userMsg =
      { role := systemRole, content := systemPromptText } ::
        (history.map fun mr => { role := mr.2, content := mr.1 }) ++
        [{ role := userRole, content := userMsg }]) ∧
    (∀ p : WeatherPacket, p.location ≠ [] →
      streamMessages sf location (some p) dump history userMsg =
        { role := systemRole, content := systemPromptText } ::
        { role := systemRole,
          content := summaryContent location (format_packet_for_prompt sf p) } ::
        { role := systemRole, content := fenceContent (dump p) } ::
        (history.map fun mr => { role := mr.2, content := mr.1 }) ++
        [{ role := userRole, content := userMsg }]) := by
  have hhead : ∀ (ws : Option Str) (wp : Option WeatherPacket),
      (buildMessages location ws wp dump history userMsg).head? =
        some { role := systemRole, content := systemPromptText } := by
    intro ws wp; simp [buildMessages]
  have hlast : ∀ (ws : Option Str) (wp : Option WeatherPacket),
      (buildMessages location ws wp dump history userMsg).getLast? =
        some { role := userRole, content := userMsg } := by
    intro ws wp
    simp only [buildMessages]
    exact List.getLast?_concat _
  refine ⟨fun pkt => ?_, ?_, fun p hp => ?_⟩
  · cases pkt with
    | none =>
      exact ⟨hhead none none, hlast none none⟩
    | some p =>
      exact ⟨hhead (some (format_packet_for_prompt sf p)) (some p),
             hlast (some (format_packet_for_prompt sf p)) (some p)⟩
  · simp [streamMessages, get_weather_summary_for_prompt, buildMessages]
  · have hs := format_packet_ne_nil sf hp
    simp [streamMessages, get_weather_summary_for_prompt, buildMessages, hs]

/-- Witness for C2: a concrete packet with location "Goa" yields exactly
[instruction, summary, fenced JSON, history row, user message]. -/
theorem prompt_message_order_witness :
    streamMessages ⟨fun _ => [], fun _ => []⟩ ("Goa".toList)
        (some ⟨"Goa".toList, none, none, 15, 74, none, some [], none, 0⟩)
        (fun _ => "j".toList) [("hello".toList, "user".toList)] ("hi".toList) =
      { role := systemRole, content := systemPromptText } ::
      { role := systemRole,
        content := summaryContent ("Goa".toList)
          (format_packet_for_prompt ⟨fun _ => [], fun _ => []⟩
            ⟨"Goa".toList, none, none, 15, 74, none, some [], none, 0⟩) } ::
      { role := systemRole,
        content := fenceContent ((fun _ => "j".toList)
          (⟨"Goa".toList, none, none, 15, 74, none, some [], none, 0⟩ : WeatherPacket)) } ::
      ([("hello".toList, "user".toList)].map fun mr => { role := mr.2, content := mr.1 }) ++
      [{ role := userRole, content := "hi".toList }] :=
  (prompt_message_order ⟨fun _ => [], fun _ => []⟩ ("Goa".toList) (fun _ => "j".toList)
      [("hello".toList, "user".toList)] ("hi".toList)).2.2
    ⟨"Goa".toList, none, none, 15, 74, none, some [], none, 0⟩ (by decide)

/-! ## Cache TTL behaviour (C3) -/

/-- C3: on the geocode and current-conditions tiers, a `get` whose entry is
younger than the TTL returns the identical cached value with no upstream
call and an unchanged cache; once `fetched_at + TTL ≤ now` the entry is a
miss — the upstream is called, a failed call leaves the stale entry in place
(no purge), and a successful call overwrites the key unconditionally with
the new value and timestamp. -/
theorem cache_ttl_behaviour (upG : Option GeoResult)
    (gc : List (Str × GeoResult × ℚ)) (cc : List ((ℚ × ℚ) × CurrentRes × ℚ))
    (location : Str) (lat lon : ℚ) (now t : ℚ) (v : GeoResult) (w : CurrentRes) :
    ((alGet gc (pyLower (pyStrip location)) = some (v, t)) →
      ((now - t < GEO_TTL →
        geocode_location true upG gc location now = (some v, gc, false)) ∧
       (GEO_TTL ≤ now - t →
        geocode_location true none gc location now = (none, gc, true) ∧
        ∀ r, geocode_location true (some r) gc location now =
            (some r, alPut gc (pyLower (pyStrip location)) (r, now), true) ∧
          alGet (alPut gc (pyLower (pyStrip location)) (r, now))
            (pyLower (pyStrip location)) = some (r, now)))) ∧
    ((alGet cc (round4 lat, round4 lon) = some (w, t)) →
      ((now - t < CURRENT_TTL →
        ∀ upC, fetch_current true upC cc lat lon now = (some w, cc, false)) ∧
       (CURRENT_TTL ≤ now - t →
        fetch_current true none cc lat lon now = (none, cc, true) ∧
        ∀ r, fetch_current true (some r) cc lat lon now =
            (some r, alPut cc (round4 lat, round4 lon) (r, now), true) ∧
          alGet (alPut cc (round4 lat, round4 lon) (r, now))
            (round4 lat, round4 lon) = some (r, now)))) := by
  constructor
  · intro hget
    constructor
    · intro hfresh
      simp [geocode_location, hget, hfresh]
    · intro hstale
      have hnl : ¬(now - t < GEO_TTL) := not_lt.mpr hstale
      refine ⟨by simp [geocode_location, hget, hnl], fun r => ⟨?_, ?_⟩⟩
      · simp [geocode_location, hget, hnl]
      · simp [alGet, alPut]
  · intro hget
    constructor
    · intro hfresh upC
      simp [fetch_current, hget, hfresh]
    · intro hstale
      have hnl : ¬(now - t < CURRENT_TTL) := not_lt.mpr hstale
      refine ⟨by simp [fetch_current, hget, hnl], fun r => ⟨?_, ?_⟩⟩
      · simp [fetch_current, hget, hnl]
      · simp [alGet, alPut]

/-- Witness for C3: a "goa" entry fetched at `t = 100` is returned unchanged
at `now = 200` (within the 24 h TTL) with no upstream call; at
`now = 100 + 86400` it is a miss — a failed refetch leaves the cache as it
was, a successful refetch overwrites. -/
theorem cache_ttl_behaviour_witness :
    (geocode_location true (some ⟨none, some 1, some 2, none, none⟩)
        [("goa".toList, ⟨none, some 15, some 74, none, none⟩, 100)] ("Goa".toList) 200 =
      (some ⟨none, some 15, some 74, none, none⟩,
       [("goa".toList, ⟨none, some 15, some 74, none, none⟩, 100)], false)) ∧
    (geocode_location true none
        [("goa".toList, ⟨none, some 15, some 74, none, none⟩, 100)] ("Goa".toList) 86500 =
      (none, [("goa".toList, ⟨none, some 15, some 74, none, none⟩, 100)], true)) ∧
    (geocode_location true (some ⟨none, some 1, some 2, none, none⟩)
        [("goa".toList, ⟨none, some 15, some 74, none, none⟩, 100)] ("Goa".toList) 86500 =
      (some ⟨none, some 1, some 2, none, none⟩,
       alPut [("goa".toList, ⟨none, some 15, some 74, none, none⟩, 100)]
         (pyLower (pyStrip ("Goa".toList))) (⟨none, some 1, some 2, none, none⟩, 86500),
       true)) := by
  refine ⟨?_, ?_, ?_⟩
  · exact ((cache_ttl_behaviour (some ⟨none, some 1, some 2, none, none⟩)
      [("goa".toList, ⟨none, some 15, some 74, none, none⟩, 100)] [] ("Goa".toList)
      0 0 200 100 ⟨none, some 15, some 74, none, none⟩
      ⟨none, none, none, none, none, none, none, none⟩).1 (by decide)).1 (by norm_num [GEO_TTL])
  · exact (((cache_ttl_behaviour (some ⟨none, some 1, some 2, none, none⟩)
      [("goa".toList, ⟨none, some 15, some 74, none, none⟩, 100)] [] ("Goa".toList)
      0 0 86500 100 ⟨none, some 15, some 74, none, none⟩
      ⟨none, none, none, none, none, none, none, none⟩).1 (by decide)).2
        (by norm_num [GEO_TTL])).1
  · exact ((((cache_ttl_behaviour (some ⟨none, some 1, some 2, none, none⟩)
      [("goa".toList, ⟨none, some 15, some 74, none, none⟩, 100)] [] ("Goa".toList)
      0 0 86500 100 ⟨none, some 15, some 74, none, none⟩
      ⟨none, none, none, none, none, none, none, none⟩).1 (by decide)).2
        (by norm_num [GEO_TTL])).2 ⟨none, some 1, some 2, none, none⟩).1

/-! ## Packet construction (C6) -/

/-- C6: `build_weather_packet` is total (never raises): when geocoding yields
no result, or a result with a missing coordinate, it returns `none`; when a
coordinate is available, it always returns a packet whose `current`,
`forecast` and `aqi` fields are exactly the results of the three independent
sub-fetches — any of which may be `none` without affecting the others, so a
packet with `current = none` and a populated `forecast` is a possible
outcome. -/
theorem build_packet_independent_failures (hasKey : Bool) (oGeo : Option GeoResult)
    (oCur : Option CurrentRes) (oFc : Option (List FcItem)) (oAqi : Option AqiRes)
    (setOrder : List (Option Str) → List (Option Str)) (caches : Caches)
    (location : Str) (days : ℕ) (now : ℚ) (hloc : location ≠ []) :
    ((geocode_location hasKey oGeo caches.geo location now).1 = none →
      (build_weather_packet hasKey oGeo oCur oFc oAqi setOrder caches location days now).1 =
        none) ∧
    (∀ geo, (geocode_location hasKey oGeo caches.geo location now).1 = some geo →
      geo.lat = none ∨ geo.lon = none →
      (build_weather_packet hasKey oGeo oCur oFc oAqi setOrder caches location days now).1 =
        none) ∧
    (∀ geo la lo, (geocode_location hasKey oGeo caches.geo location now).1 = some geo →
      geo.lat = some la → geo.lon = some lo →
      (build_weather_packet hasKey oGeo oCur oFc oAqi setOrder caches location days now).1 =
        some { location := (match geo.name with
                            | some n => if n = [] then location else n
                            | none => location)
               country := geo.country
               state := geo.state
               lat := la
               lon := lo
               current := (fetch_current hasKey oCur caches.cur la lo now).1
               forecast := (fetch_forecast hasKey oFc setOrder caches.fc la lo days now).1
               aqi := (fetch_aqi hasKey oAqi caches.aqi la lo now).1
               fetched_at := now }) := by
  refine ⟨?_, fun geo hg hlatlon => ?_, fun geo la lo hg hla hlo => ?_⟩
  · intro h1
    simp only [build_weather_packet, if_neg hloc, h1]
  · simp only [build_weather_packet, if_neg hloc, hg]
    rcases hlatlon with h | h
    · simp [h]
    · rcases hl : geo.lat with _ | la
      · simp [hl]
      · simp [hl, h]
  · simp only [build_weather_packet, if_neg hloc, hg, hla, hlo]


/-- Witness for C6: with the current-conditions fetch failing and the
forecast fetch succeeding, the packet is still built, with `current = none`
and `forecast` populated. -/
theorem build_packet_independent_failures_witness :
    (build_weather_packet true
        (some ⟨some ("Goa".toList), some 15, some 74, some ("IN".toList), none⟩)
        none (some [⟨0, some 20, some ("rain".toList), none, none⟩]) none
        (fun l => l.dedup) ⟨[], [], [], []⟩ ("Goa".toList) 5 0).1 =
      some { location := "Goa".toList, country := some ("IN".toList), state := none,
             lat := 15, lon := 74, current := none,
             forecast := some (aggregateForecast (fun l => l.dedup)
               [⟨0, some 20, some ("rain".toList), none, none⟩] 5),
             aqi := none, fetched_at := 0 } :=
  ((build_packet_independent_failures true
      (some ⟨some ("Goa".toList), some 15, some 74, some ("IN".toList), none⟩)
      none (some [⟨0, some 20, some ("rain".toList), none, none⟩]) none
      (fun l => l.dedup) ⟨[], [], [], []⟩ ("Goa".toList) 5 0 (by decide)).2.2
    ⟨some ("Goa".toList), some 15, some 74, some ("IN".toList), none⟩ 15 74
    (by decide) rfl rfl).trans rfl

/-! ## Forecast aggregation lemmas (C5, C9) -/

theorem insertNat_perm (a : ℕ) (l : List ℕ) : List.Perm (insertNat a l) (a :: l) := by
  induction l with
  | nil => exact List.Perm.refl _
  | cons b bs ih =>
    simp only [insertNat]
    split
    · exact List.Perm.refl _
    · exact (List.Perm.cons b ih).trans (List.Perm.swap a b bs)

theorem sortNat_perm (l : List ℕ) : List.Perm (sortNat l) l := by
  induction l with
  | nil => exact List.Perm.refl _
  | cons a as ih => exact (insertNat_perm a (sortNat as)).trans (List.Perm.cons a ih)

theorem insertNat_sorted {a : ℕ} {l : List ℕ} (h : List.Pairwise (· ≤ ·) l) :
    List.Pairwise (· ≤ ·) (insertNat a l) := by
  induction l with
  | nil => simp [insertNat]
  | cons b bs ih =>
    simp only [insertNat]
    split
    · rename_i hab
      refine List.Pairwise.cons ?_ h
      intro x hx
      rcases List.mem_cons.mp hx with rfl | hx
      · exact hab
      · exact le_trans hab (List.rel_of_pairwise_cons h hx)
    · rename_i hab
      push_neg at hab
      have hbs := List.pairwise_cons.mp h
      refine List.pairwise_cons.mpr ⟨?_, ih hbs.2⟩
      intro x hx
      rcases List.mem_cons.mp ((insertNat_perm a bs).mem_iff.mp hx) with rfl | hx'
      · exact le_of_lt hab
      · exact hbs.1 x hx'

theorem sortNat_sorted (l : List ℕ) : List.Pairwise (· ≤ ·) (sortNat l) := by
  induction l with
  | nil => simp [sortNat]
  | cons a as ih => exact insertNat_sorted ih

theorem sortNat_dedup_pairwise_lt (l : List ℕ) :
    List.Pairwise (· < ·) (sortNat l.dedup) := by
  have hnd : (sortNat l.dedup).Nodup :=
    ((sortNat_perm l.dedup).nodup_iff).mpr l.nodup_dedup
  have hle := sortNat_sorted l.dedup
  exact (hle.and hnd).imp (fun h => lt_of_le_of_ne h.1 h.2)

theorem foldlMin_mem : ∀ (ts : List ℚ) (t : ℚ),
    ts.foldl (fun b y => if y < b then y else b) t ∈ t :: ts := by
  intro ts
  induction ts with
  | nil => intro t; simp
  | cons y ys ih =>
    intro t
    rw [List.foldl_cons]
    have h := ih (if y < t then y else t)
    rcases List.mem_cons.mp h with h | h
    · rw [h]; split <;> simp
    · simp [h]

theorem foldlMin_le : ∀ (ts : List ℚ) (t u : ℚ), u ∈ t :: ts →
    ts.foldl (fun b y => if y < b then y else b) t ≤ u := by
  intro ts
  induction ts with
  | nil =>
    intro t u hu
    simp only [List.foldl_nil]
    rcases List.mem_cons.mp hu with rfl | hu
    · exact le_refl u
    · simp at hu
  | cons y ys ih =>
    intro t u hu
    rw [List.foldl_cons]
    have hstep_t : (if y < t then y else t) ≤ t := by
      split
      · exact le_of_lt ‹_›
      · exact le_refl t
    have hstep_y : (if y < t then y else t) ≤ y := by
      split
      · exact le_refl y
      · exact not_lt.mp ‹_›
    have hfold : ys.foldl (fun b y => if y < b then y else b) (if y < t then y else t) ≤
        (if y < t then y else t) := ih _ _ (List.mem_cons_self _ _)
    rcases List.mem_cons.mp hu with rfl | hu
    · exact le_trans hfold hstep_t
    rcases List.mem_cons.mp hu with rfl | hu
    · exact le_trans hfold hstep_y
    · exact ih _ u (List.mem_cons_of_mem _ hu)

theorem foldlMax_mem : ∀ (ts : List ℚ) (t : ℚ),
    ts.foldl (fun b y => if b < y then y else b) t ∈ t :: ts := by
  intro ts
  induction ts with
  | nil => intro t; simp
  | cons y ys ih =>
    intro t
    rw [List.foldl_cons]
    have h := ih (if t < y then y else t)
    rcases List.mem_cons.mp h with h | h
    · rw [h]; split <;> simp
    · simp [h]

theorem foldlMax_ge : ∀ (ts : List ℚ) (t u : ℚ), u ∈ t :: ts →
    u ≤ ts.foldl (fun b y => if b < y then y else b) t := by
  intro ts
  induction ts with
  | nil =>
    intro t u hu
    simp only [List.foldl_nil]
    rcases List.mem_cons.mp hu with rfl | hu
    · exact le_refl u
    · simp at hu
  | cons y ys ih =>
    intro t u hu
    rw [List.foldl_cons]
    have hstep_t : t ≤ (if t < y then y else t) := by
      split
      · exact le_of_lt ‹_›
      · exact le_refl t
    have hstep_y : y ≤ (if t < y then y else t) := by
      split
      · exact le_refl y
      · exact not_lt.mp ‹_›
    have hfold : (if t < y then y else t) ≤
        ys.foldl (fun b y => if b < y then y else b) (if t < y then y else t) :=
      ih _ _ (List.mem_cons_self _ _)
    rcases List.mem_cons.mp hu with rfl | hu
    · exact le_trans hstep_t hfold
    rcases List.mem_cons.mp hu with rfl | hu
    · exact le_trans hstep_y hfold
    · exact ih _ u (List.mem_cons_of_mem _ hu)

theorem pyMaxFold_mem (counts : Option Str → ℕ) :
    ∀ (xs : List (Option Str)) (x : Option Str),
      xs.foldl (fun best y => if counts best < counts y then y else best) x ∈ x :: xs := by
  intro xs
  induction xs with
  | nil => intro x; simp
  | cons y ys ih =>
    intro x
    rw [List.foldl_cons]
    have h := ih (if counts x < counts y then y else x)
    rcases List.mem_cons.mp h with h | h
    · rw [h]; split <;> simp
    · simp [h]

theorem pyMaxFold_count_le (counts : Option Str → ℕ) :
    ∀ (xs : List (Option Str)) (x u : Option Str), u ∈ x :: xs →
      counts u ≤ counts (xs.foldl (fun best y => if counts best < counts y then y else best) x) := by
  intro xs
  induction xs with
  | nil =>
    intro x u hu
    simp only [List.foldl_nil]
    rcases List.mem_cons.mp hu with rfl | hu
    · exact le_refl _
    · simp at hu
  | cons y ys ih =>
    intro x u hu
    rw [List.foldl_cons]
    have hstep_x : counts x ≤ counts (if counts x < counts y then y else x) := by
      split
      · exact le_of_lt ‹_›
      · exact le_refl _
    have hstep_y : counts y ≤ counts (if counts x < counts y then y else x) := by
      split
      · exact le_refl _
      · exact not_lt.mp ‹_›
    have hfold : counts (if counts x < counts y then y else x) ≤
        counts (ys.foldl (fun best y => if counts best < counts y then y else best)
          (if counts x < counts y then y else x)) :=
      ih _ _ (List.mem_cons_self _ _)
    rcases List.mem_cons.mp hu with rfl | hu
    · exact le_trans hstep_x hfold
    rcases List.mem_cons.mp hu with rfl | hu
    · exact le_trans hstep_y hfold
    · exact ih _ u (List.mem_cons_of_mem _ hu)

theorem mem_aggregateForecast {so : List (Option Str) → List (Option Str)}
    {items : List FcItem} {days : ℕ} {a : DayAgg}
    (ha : a ∈ aggregateForecast so items days) :
    a = mkDayAgg so items a.date ∧ a.date ∈ emittedDays items days := by
  obtain ⟨d, hd, rfl⟩ := List.mem_map.mp ha
  exact ⟨rfl, hd⟩

theorem commonDesc_mem {so : List (Option Str) → List (Option Str)}
    {l : List (Option Str)} (hord : (so l).Perm l.dedup) (hl : l ≠ []) :
    commonDesc so l ∈ l ∧
    ∀ y ∈ l, l.count y ≤ l.count (commonDesc so l) := by
  obtain ⟨x, xs, rfl⟩ := List.exists_cons_of_ne_nil hl
  have hdne : (x :: xs).dedup ≠ [] := by
    intro hc
    exact List.cons_ne_nil x xs ((List.dedup_eq_nil _).mp hc)
  cases hso : so (x :: xs) with
  | nil =>
    exfalso
    have hlen := hord.length_eq
    rw [hso] at hlen
    exact hdne (List.length_eq_zero.mp hlen.symm)
  | cons e es =>
    have hres : commonDesc so (x :: xs) =
        es.foldl (fun best y =>
          if (x :: xs).count best < (x :: xs).count y then y else best) e := by
      simp only [commonDesc, hso, pyMaxByCount]
    constructor
    · have h1 : commonDesc so (x :: xs) ∈ e :: es := by
        rw [hres]; exact pyMaxFold_mem _ es e
      have h2 : commonDesc so (x :: xs) ∈ so (x :: xs) := by rw [hso]; exact h1
      exact List.mem_dedup.mp (hord.subset h2)
    · intro y hy
      have hyso : y ∈ e :: es := by
        rw [← hso]
        exact hord.mem_iff.mpr (List.mem_dedup.mpr hy)
      rw [hres]
      exact pyMaxFold_count_le (fun y => (x :: xs).count y) es e y hyso

theorem mkDayAgg_date (so : List (Option Str) → List (Option Str)) (items : List FcItem)
    (d : ℕ) : (mkDayAgg so items d).date = d := rfl

theorem mkDayAgg_fields (so : List (Option Str) → List (Option Str)) (items : List FcItem)
    (d : ℕ) :
    (mkDayAgg so items d).temp_min_c = listMin (tempsOfDay items d) ∧
    (mkDayAgg so items d).temp_max_c = listMax (tempsOfDay items d) ∧
    (mkDayAgg so items d).temp_avg_c = listAvg (tempsOfDay items d) ∧
    (mkDayAgg so items d).common_description = commonDesc so (descsOfDay items d) ∧
    (mkDayAgg so items d).wind_avg_m_s = listAvg (windsOfDay items d) ∧
    (mkDayAgg so items d).humidity_avg = listAvg (humsOfDay items d) :=
  ⟨rfl, rfl, rfl, rfl, rfl, rfl⟩

/-- C5: for every aggregated day, `temp_min_c`/`temp_max_c`/`temp_avg_c` are
the minimum, maximum and arithmetic mean of the day's non-null temperature
samples; a field with zero valid samples (temperatures, wind, humidity,
descriptions) is absent rather than zero; and the emitted days are the
distinct UTC day buckets in strictly ascending order, truncated to the
`days` smallest. -/
theorem forecast_daily_aggregation (so : List (Option Str) → List (Option Str))
    (items : List FcItem) (days : ℕ) (hord : ∀ l, (so l).Perm l.dedup) :
    ((aggregateForecast so items days).map DayAgg.date = emittedDays items days ∧
     List.Pairwise (· < ·) ((aggregateForecast so items days).map DayAgg.date) ∧
     (aggregateForecast so items days).length = min days (items.map dayOf).dedup.length ∧
     (∀ d ∈ emittedDays items days, ∀ d' ∈ (items.map dayOf).dedup,
        d' ∉ emittedDays items days → d < d')) ∧
    ∀ a ∈ aggregateForecast so items days,
      ((tempsOfDay items a.date = [] →
          a.temp_min_c = none ∧ a.temp_max_c = none ∧ a.temp_avg_c = none) ∧
       (tempsOfDay items a.date ≠ [] →
          (∃ m, a.temp_min_c = some m ∧ m ∈ tempsOfDay items a.date ∧
            ∀ u ∈ tempsOfDay items a.date, m ≤ u) ∧
          (∃ M, a.temp_max_c = some M ∧ M ∈ tempsOfDay items a.date ∧
            ∀ u ∈ tempsOfDay items a.date, u ≤ M) ∧
          a.temp_avg_c = some ((tempsOfDay items a.date).sum /
            (tempsOfDay items a.date).length)) ∧
       (windsOfDay items a.date = [] → a.wind_avg_m_s = none) ∧
       (humsOfDay items a.date = [] → a.humidity_avg = none) ∧
       ((∀ o ∈ descsOfDay items a.date, o = none) → a.common_description = none)) := by
  have hmapdate : (aggregateForecast so items days).map DayAgg.date = emittedDays items days := by
    simp [aggregateForecast, List.map_map, Function.comp_def, mkDayAgg_date]
  refine ⟨⟨hmapdate, ?_, ?_, ?_⟩, ?_⟩
  · rw [hmapdate]
    exact (sortNat_dedup_pairwise_lt (items.map dayOf)).sublist (List.take_sublist _ _)
  · simp [aggregateForecast, emittedDays, (sortNat_perm (items.map dayOf).dedup).length_eq]
  · intro d hd d' hd' hnot
    have hd'S : d' ∈ sortNat (items.map dayOf).dedup :=
      (sortNat_perm _).mem_iff.mpr hd'
    have hsplit := List.take_append_drop days (sortNat (items.map dayOf).dedup)
    have hpw := sortNat_dedup_pairwise_lt (items.map dayOf)
    rw [← hsplit] at hpw hd'S
    have hdrop : d' ∈ (sortNat (items.map dayOf).dedup).drop days := by
      rcases List.mem_append.mp hd'S with h | h
      · exact absurd h hnot
      · exact h
    exact (List.pairwise_append.mp hpw).2.2 d hd d' hdrop
  · intro a ha
    obtain ⟨d, hd, rfl⟩ := List.mem_map.mp ha
    obtain ⟨h1, h2, h3, h4, h5, h6⟩ := mkDayAgg_fields so items d
    rw [mkDayAgg_date] at *
    refine ⟨fun hT => ?_, fun hT => ?_, fun hW => ?_, fun hH => ?_, fun hD => ?_⟩
    · rw [h1, h2, h3, hT]
      exact ⟨rfl, rfl, rfl⟩
    · obtain ⟨t, ts, hT'⟩ := List.exists_cons_of_ne_nil hT
      refine ⟨⟨ts.foldl (fun b y => if y < b then y else b) t, ?_, ?_, ?_⟩,
              ⟨ts.foldl (fun b y => if b < y then y else b) t, ?_, ?_, ?_⟩, ?_⟩
      · rw [h1, hT']; rfl
      · rw [hT']; exact foldlMin_mem ts t
      · intro u hu; rw [hT'] at hu; exact foldlMin_le ts t u hu
      · rw [h2, hT']; rfl
      · rw [hT']; exact foldlMax_mem ts t
      · intro u hu; rw [hT'] at hu; exact foldlMax_ge ts t u hu
      · rw [h3]; simp [listAvg, hT]
    · rw [h5]; simp [listAvg, hW]
    · rw [h6]; simp [listAvg, hH]
    · rw [h4]
      by_cases hld : descsOfDay items d = []
      · rw [hld]; rfl
      · exact hD _ ((commonDesc_mem (hord (descsOfDay items d)) hld).1)

/-- Witness for C5: three samples `[20, 25, 30]` on one UTC day aggregate to
minimum 20, maximum 30, arithmetic mean 25, in a single emitted day. -/
theorem forecast_daily_aggregation_witness :
    ((aggregateForecast (fun l => l.dedup)
        [⟨0, some 20, some ("rain".toList), none, none⟩,
         ⟨3600, some 25, some ("rain".toList), none, none⟩,
         ⟨7200, some 30, some ("rain".toList), none, none⟩] 5).map
      (fun a => (a.date, a.temp_min_c, a.temp_max_c, a.temp_avg_c)) =
      [(0, some 20, some 30, some 25)]) ∧
    (aggregateForecast (fun l => l.dedup)
        [⟨0, some 20, some ("rain".toList), none, none⟩,
         ⟨3600, some 25, some ("rain".toList), none, none⟩,
         ⟨7200, some 30, some ("rain".toList), none, none⟩] 5).map DayAgg.date =
      emittedDays
        [⟨0, some 20, some ("rain".toList), none, none⟩,
         ⟨3600, some 25, some ("rain".toList), none, none⟩,
         ⟨7200, some 30, some ("rain".toList), none, none⟩] 5 := by
  constructor
  · have hagg : aggregateForecast (fun l => l.dedup)
        [⟨0, some 20, some ("rain".toList), none, none⟩,
         ⟨3600, some 25, some ("rain".toList), none, none⟩,
         ⟨7200, some 30, some ("rain".toList), none, none⟩] 5 =
        [mkDayAgg (fun l => l.dedup)
          [⟨0, some 20, some ("rain".toList), none, none⟩,
           ⟨3600, some 25, some ("rain".toList), none, none⟩,
           ⟨7200, some 30, some ("rain".toList), none, none⟩] 0] := rfl
    rw [hagg]
    have h1 : (mkDayAgg (fun l => l.dedup)
        [⟨0, some 20, some ("rain".toList), none, none⟩,
         ⟨3600, some 25, some ("rain".toList), none, none⟩,
         ⟨7200, some 30, some ("rain".toList), none, none⟩] 0).temp_avg_c = some 25 := by
      show listAvg [20, 25, 30] = some 25
      rw [listAvg, if_neg (by simp)]
      norm_num
    simp only [List.map_cons, List.map_nil, h1]
    decide
  · exact (forecast_daily_aggregation (fun l => l.dedup)
      [⟨0, some 20, some ("rain".toList), none, none⟩,
       ⟨3600, some 25, some ("rain".toList), none, none⟩,
       ⟨7200, some 30, some ("rain".toList), none, none⟩] 5
      (fun l => List.Perm.refl _)).1.1

/-- C9 (amended): `common_description` always attains the maximal per-entry
count among the day's descriptions — it is *a* statistical mode — but the
tie-break is the Python set iteration order, which need not be the
first-encountered value. -/
theorem common_description_attains_max (so : List (Option Str) → List (Option Str))
    (items : List FcItem) (days : ℕ) (hord : ∀ l, (so l).Perm l.dedup) :
    ∀ a ∈ aggregateForecast so items days, descsOfDay items a.date ≠ [] →
      a.common_description ∈ descsOfDay items a.date ∧
      ∀ y ∈ descsOfDay items a.date,
        (descsOfDay items a.date).count y ≤
          (descsOfDay items a.date).count a.common_description := by
  intro a ha hne
  obtain ⟨d, hd, rfl⟩ := List.mem_map.mp ha
  rw [mkDayAgg_date] at hne ⊢
  have hcd : (mkDayAgg so items d).common_description =
      commonDesc so (descsOfDay items d) := rfl
  rw [hcd]
  exact commonDesc_mem (hord (descsOfDay items d)) hne

/-- Witness for C9's amended statement: with a unique mode ("rain" twice,
"mist" once) the chosen description is one of the day's descriptions and its
count dominates, e.g., the count of "mist". -/
theorem common_description_attains_max_witness :
    (mkDayAgg (fun l => l.dedup)
        [⟨0, some 1, some ("rain".toList), none, none⟩,
         ⟨3600, some 2, some ("mist".toList), none, none⟩,
         ⟨7200, some 3, some ("rain".toList), none, none⟩] 0).common_description ∈
      descsOfDay
        [⟨0, some 1, some ("rain".toList), none, none⟩,
         ⟨3600, some 2, some ("mist".toList), none, none⟩,
         ⟨7200, some 3, some ("rain".toList), none, none⟩]
        (mkDayAgg (fun l => l.dedup)
          [⟨0, some 1, some ("rain".toList), none, none⟩,
           ⟨3600, some 2, some ("mist".toList), none, none⟩,
           ⟨7200, some 3, some ("rain".toList), none, none⟩] 0).date ∧
    (descsOfDay
        [⟨0, some 1, some ("rain".toList), none, none⟩,
         ⟨3600, some 2, some ("mist".toList), none, none⟩,
         ⟨7200, some 3, some ("rain".toList), none, none⟩]
        (mkDayAgg (fun l => l.dedup)
          [⟨0, some 1, some ("rain".toList), none, none⟩,
           ⟨3600, some 2, some ("mist".toList), none, none⟩,
           ⟨7200, some 3, some ("rain".toList), none, none⟩] 0).date).count
        (some ("mist".toList)) ≤
      (descsOfDay
        [⟨0, some 1, some ("rain".toList), none, none⟩,
         ⟨3600, some 2, some ("mist".toList), none, none⟩,
         ⟨7200, some 3, some ("rain".toList), none, none⟩]
        (mkDayAgg (fun l => l.dedup)
          [⟨0, some 1, some ("rain".toList), none, none⟩,
           ⟨3600, some 2, some ("mist".toList), none, none⟩,
           ⟨7200, some 3, some ("rain".toList), none, none⟩] 0).date).count
        (mkDayAgg (fun l => l.dedup)
          [⟨0, some 1, some ("rain".toList), none, none⟩,
           ⟨3600, some 2, some ("mist".toList), none, none⟩,
           ⟨7200, some 3, some ("rain".toList), none, none⟩] 0).common_description := by
  have h := common_description_attains_max (fun l => l.dedup)
    [⟨0, some 1, some ("rain".toList), none, none⟩,
     ⟨3600, some 2, some ("mist".toList), none, none⟩,
     ⟨7200, some 3, some ("rain".toList), none, none⟩] 5
    (fun l => List.Perm.refl l.dedup)
    (mkDayAgg (fun l => l.dedup)
      [⟨0, some 1, some ("rain".toList), none, none⟩,
       ⟨3600, some 2, some ("mist".toList), none, none⟩,
       ⟨7200, some 3, some ("rain".toList), none, none⟩] 0)
    (by
      rw [show aggregateForecast (fun l => l.dedup)
          [⟨0, some 1, some ("rain".toList), none, none⟩,
           ⟨3600, some 2, some ("mist".toList), none, none⟩,
           ⟨7200, some 3, some ("rain".toList), none, none⟩] 5 =
          [mkDayAgg (fun l => l.dedup)
            [⟨0, some 1, some ("rain".toList), none, none⟩,
             ⟨3600, some 2, some ("mist".toList), none, none⟩,
             ⟨7200, some 3, some ("rain".toList), none, none⟩] 0] from rfl]
      exact List.mem_singleton.mpr rfl)
    (by decide)
  exact ⟨h.1, h.2 (some ("mist".toList)) (by decide)⟩

/-- Counterexample for C9 as stated: with tied counts ("rain", "mist" once
each) a legitimate set iteration order (here: reversed) makes the code pick
"mist", while the spec's first-encountered tie-break declares "rain". -/
theorem common_description_counterexample :
    (∀ l : List (Option Str), List.Perm ((fun l => l.dedup.reverse) l) l.dedup) ∧
    (aggregateForecast (fun l => l.dedup.reverse)
        [⟨0, some 1, some ("rain".toList), none, none⟩,
         ⟨60, some 2, some ("mist".toList), none, none⟩] 5).map
      (fun a => a.common_description) = [some ("mist".toList)] ∧
    specFirstMode [some ("rain".toList), some ("mist".toList)] = some ("rain".toList) ∧
    (some ("mist".toList) : Option Str) ≠ some ("rain".toList) :=
  ⟨fun l => List.reverse_perm l.dedup, by decide, by decide, by decide⟩

/-! ## Follow-up location resolution (C4) -/

/-- Counterexample for C4 as stated: with `lastLocation = "Pune"` and the
query "what about tomorrow", the resolver does *not* return "Pune" — the
trailing-words fallback captures the whole query (none of its words is a
stop word), so extraction succeeds and the follow-up branch is never
reached. -/
theorem followup_resolution_counterexample :
    resolveLocation ("what about tomorrow".toList) (some ("Pune".toList)) =
      some ("What About Tomorrow".toList) ∧
    is_weather_followup ("what about tomorrow".toList) = true ∧
    some ("What About Tomorrow".toList) ≠ some ("Pune".toList) := by
  refine ⟨by decide, by decide, by decide⟩

/-- C4 (amended): given `lastLocation = "Pune"` and the query
"what about tomorrow", resolution returns "What About Tomorrow": the
trailing-words fallback turns the query itself into a location candidate, so
the session's last known location is ignored even though the query contains
a temporal follow-up cue. -/
theorem followup_resolution_actual :
    extract_location ("what about tomorrow".toList) =
      some ("What About Tomorrow".toList) ∧
    resolveLocation ("what about tomorrow".toList) (some ("Pune".toList)) =
      some ("What About Tomorrow".toList) := by
  refine ⟨by decide, by decide⟩

/-! ## Candidate normalization (C8) and the trailing-words fallback (C10) -/

/-- Counterexample for C8 as stated: the phrase-pattern branch captures
"is paris" from "weather in is paris" but strips only
`{the, at, in, for, near, th}`, returning "Is Paris"; the spec's
normalization (full eight stop words) would return "Paris". -/
theorem extraction_normalization_counterexample :
    extract_location ("weather in is paris".toList) = some ("Is Paris".toList) ∧
    specNormalize ("is paris".toList) = some ("Paris".toList) ∧
    ("Is Paris".toList : Str) ≠ ("Paris".toList : Str) :=
  ⟨by decide, by decide, by decide⟩

/-- C8 (amended): every location returned by `extract_location` went through
one of the two normalizations — the phrase/reverse branches strip
`{the, at, in, for, near, th}` and the trailing-words fallback strips
`{the, at, in, for, near, th, is, present}`; both trim, reject candidates of
length ≤ 2, and title-case, so every returned location has length > 2 and is
title-cased. -/
theorem extraction_normalization (q l : Str) (h : extract_location q = some l) :
    ((∃ g, normPR g = some l) ∨ (∃ g, normFB g = some l)) ∧
    2 < l.length ∧ (∃ s, l = pyTitle s) := by
  have hshape := extract_location_shape h
  refine ⟨hshape, ?_⟩
  rcases hshape with ⟨g, hg⟩ | ⟨g, hg⟩
  · exact normPR_shape hg
  · exact normFB_shape hg

/-- Witness for C8's amended statement at the query "weather in goa". -/
theorem extraction_normalization_witness :
    ((∃ g, normPR g = some ("Goa".toList)) ∨ (∃ g, normFB g = some ("Goa".toList))) ∧
    2 < ("Goa".toList).length ∧ (∃ s, ("Goa".toList : Str) = pyTitle s) :=
  extraction_normalization ("weather in goa".toList) ("Goa".toList) (by decide)

theorem drop_length_sub_one_eq {α : Type} : ∀ {l : List α} {w : α},
    l.getLast? = some w → l.drop (l.length - 1) = [w] := by
  intro l
  induction l with
  | nil => intro w h; simp at h
  | cons a t ih =>
    intro w h
    cases t with
    | nil =>
      simp only [List.getLast?_singleton, Option.some.injEq] at h
      subst h
      rfl
    | cons b u =>
      rw [List.getLast?_cons_cons] at h
      have := ih h
      simpa using this

/-- C10 (implicit): whenever the trailing word of the (lowered, stripped)
query survives the eight-stop-word normalization with more than 2
characters, `extract_location` is guaranteed to return a title-cased
location — regardless of weather intent — so the resolver returns it and the
`last_location` follow-up branch is not reached. -/
theorem trailing_words_guarantee (query : Str) (last : Option Str) (w : Str)
    (hw : (splitWs (pyLower (pyStrip query))).getLast? = some w)
    (hlen : 2 < (pyStrip (subStops stops8 false w)).length) :
    ∃ loc, extract_location query = some loc ∧ (∃ s, loc = pyTitle s) ∧
      resolveLocation query last = some loc := by
  have hqne : query ≠ [] := by
    intro h
    rw [h] at hw
    exact Option.noConfusion hw
  have hwordsne : splitWs (pyLower (pyStrip query)) ≠ [] := by
    intro h
    rw [h] at hw
    exact Option.noConfusion hw
  have htry : trySize (splitWs (pyLower (pyStrip query))) 1 ≠ none := by
    have h1 : 1 ≤ (splitWs (pyLower (pyStrip query))).length := by
      cases hsw : splitWs (pyLower (pyStrip query)) with
      | nil => exact absurd hsw hwordsne
      | cons a t => simp
    rw [trySize, if_pos h1, drop_length_sub_one_eq hw]
    simp only [joinSpace, normFB]
    rw [if_pos hlen]
    simp
  have hex : extract_location query ≠ none := by
    intro hnone
    apply htry
    simp only [extract_location, if_neg hqne] at hnone
    iterate 11 replace hnone := (oOr_eq_none hnone).2
    simp only [fallbackLoc] at hnone
    exact (oOr_eq_none (oOr_eq_none hnone).2).2
  obtain ⟨loc, hloc⟩ := Option.ne_none_iff_exists'.mp hex
  refine ⟨loc, hloc, ?_, ?_⟩
  · rcases extract_location_shape hloc with ⟨g, hg⟩ | ⟨g, hg⟩
    · exact (normPR_shape hg).2
    · exact (normFB_shape hg).2
  · simp [resolveLocation, hloc]

/-- Witness for C10: "book a flight" has no weather intent at all, yet the
fallback extracts a location and the resolver returns it. -/
theorem trailing_words_guarantee_witness :
    ∃ loc, extract_location ("book a flight".toList) = some loc ∧
      (∃ s, loc = pyTitle s) ∧
      resolveLocation ("book a flight".toList) none = some loc :=
  trailing_words_guarantee ("book a flight".toList) none ("flight".toList)
    (by decide) (by decide)

/-! ## Occurrence lemmas for the phrase patterns (C7) -/

theorem containsSub_iff {pat : Str} : ∀ {s : Str}, containsSub pat s = true ↔ pat <:+: s := by
  intro s
  induction s with
  | nil =>
    simp only [containsSub, List.isEmpty_iff, List.infix_nil]
  | cons c cs ih =>
    simp only [containsSub, Bool.or_eq_true, List.infix_cons_iff,
      List.isPrefixOf_iff_prefix, ih]

theorem containsSub_tail {pat : Str} {c : Char} {cs : Str}
    (h : containsSub pat (c :: cs) = false) : containsSub pat cs = false := by
  simp only [containsSub, Bool.or_eq_false_iff] at h
  exact h.2

theorem containsSub_mono {small big q : Str} (hinf : small <:+: big)
    (h : containsSub small q = false) : containsSub big q = false := by
  cases hb : containsSub big q
  · rfl
  · exact absurd h (by simp [containsSub_iff.mpr (hinf.trans (containsSub_iff.mp hb))])

theorem containsSub_drop {pat : Str} {s : Str} (n : ℕ)
    (h : containsSub pat s = false) : containsSub pat (s.drop n) = false := by
  cases hb : containsSub pat (s.drop n)
  · rfl
  · have h1 : pat <:+: s.drop n := containsSub_iff.mp hb
    have h2 : s.drop n <:+: s := (List.drop_suffix n s).isInfix
    exact absurd h (by simp [containsSub_iff.mpr (h1.trans h2)])

theorem searchLitClass_eq_none {lit : Str} : ∀ {s : Str},
    containsSub lit s = false → searchLitClass lit s = none := by
  intro s
  induction s with
  | nil => intro _; rfl
  | cons c cs ih =>
    intro h
    have h' := h
    simp only [containsSub, Bool.or_eq_false_iff] at h'
    simp only [searchLitClass, h'.1, Bool.false_eq_true, if_false]
    exact ih h'.2

theorem dotStarScan_eq_none {lit2 : Str} : ∀ {s : Str},
    containsSub lit2 s = false → dotStarScan lit2 s = none := by
  intro s
  induction s with
  | nil => intro _; rfl
  | cons c cs ih =>
    intro h
    have h' := h
    simp only [containsSub, Bool.or_eq_false_iff] at h'
    simp only [dotStarScan, h'.1, Bool.false_eq_true, if_false]
    rw [ih h'.2, ite_self]
    rfl

theorem searchDotStar_eq_none {lit1 lit2 : Str} : ∀ {s : Str},
    containsSub lit2 s = false → searchDotStar lit1 lit2 s = none := by
  intro s
  induction s with
  | nil => intro _; rfl
  | cons c cs ih =>
    intro h
    simp only [searchDotStar]
    split
    · rw [dotStarScan_eq_none (containsSub_drop _ h)]
      exact ih (containsSub_tail h)
    · exact ih (containsSub_tail h)

theorem wsThenLit_eq_false {r : Str}
    (hw : containsSub ("weather".toList) r = false)
    (ht : containsSub ("temperature".toList) r = false)
    (hf : containsSub ("forecast".toList) r = false)
    {t : Str} (hsuf : t <:+ r) : wsThenLit t = false := by
  cases t with
  | nil => rfl
  | cons c cs =>
    have hany : revLits.any (fun lit => lit.isPrefixOf ((c :: cs).dropWhile isWs)) = false := by
      rw [List.any_eq_false]
      intro lit hlit
      simp only [Bool.not_eq_true]
      cases hp : lit.isPrefixOf ((c :: cs).dropWhile isWs)
      · rfl
      · exfalso
        have h1 : lit <+: ((c :: cs).dropWhile isWs) := List.isPrefixOf_iff_prefix.mp hp
        have h2 : ((c :: cs).dropWhile isWs) <:+ (c :: cs) := List.dropWhile_suffix _
        have h3 : lit <:+: r := h1.isInfix.trans (h2.trans hsuf).isInfix
        have hsub : containsSub lit r = true := containsSub_iff.mpr h3
        simp only [revLits, List.mem_cons, List.not_mem_nil, or_false] at hlit
        rcases hlit with rfl | rfl | rfl
        · rw [hsub] at hw; exact Bool.noConfusion hw
        · rw [hsub] at ht; exact Bool.noConfusion ht
        · rw [hsub] at hf; exact Bool.noConfusion hf
    simp only [wsThenLit, hany, Bool.and_false]

theorem tryLen_eq_none {s : Str} (hcond : ∀ n, wsThenLit (s.drop n) = false) :
    ∀ (R : Str) (m : ℕ), tryLen R s m = none := by
  intro R m
  induction m with
  | zero => rfl
  | succ k ih =>
    simp only [tryLen, hcond (k + 1), Bool.false_eq_true, if_false]
    exact ih

theorem revMatchAt_eq_none {s : Str}
    (hw : containsSub ("weather".toList) s = false)
    (ht : containsSub ("temperature".toList) s = false)
    (hf : containsSub ("forecast".toList) s = false) :
    revMatchAt s = none := by
  unfold revMatchAt
  exact tryLen_eq_none
    (fun n => wsThenLit_eq_false hw ht hf (List.drop_suffix n s)) _ _

theorem revSearch_eq_none : ∀ {s : Str},
    containsSub ("weather".toList) s = false →
    containsSub ("temperature".toList) s = false →
    containsSub ("forecast".toList) s = false →
    revSearch s = none := by
  intro s
  induction s with
  | nil => intro _ _ _; rfl
  | cons c cs ih =>
    intro hw ht hf
    simp only [revSearch]
    rw [revMatchAt_eq_none hw ht hf]
    exact ih (containsSub_tail hw) (containsSub_tail ht) (containsSub_tail hf)

theorem isPrefixOf_through_space {pat : Str} (hnosp : ∀ c ∈ pat, isWs c = false) :
    ∀ {y t : Str}, pat.isPrefixOf (y ++ ' ' :: t) = true → pat.isPrefixOf y = true := by
  induction pat with
  | nil => intro y t _; simp [List.isPrefixOf]
  | cons p ps ih =>
    intro y t h
    cases y with
    | nil =>
      exfalso
      simp only [List.nil_append, List.isPrefixOf, Bool.and_eq_true, beq_iff_eq] at h
      have := hnosp p (List.mem_cons_self p ps)
      rw [h.1] at this
      exact Bool.noConfusion this
    | cons a y' =>
      simp only [List.cons_append, List.isPrefixOf, Bool.and_eq_true] at h ⊢
      exact ⟨h.1, ih (fun c hc => hnosp c (List.mem_cons_of_mem p hc)) h.2⟩

theorem isPrefixOf_of_le {small big s : Str} (hsb : small <+: big)
    (h : big.isPrefixOf s = true) : small.isPrefixOf s = true :=
  List.isPrefixOf_iff_prefix.mpr (hsb.trans (List.isPrefixOf_iff_prefix.mp h))

theorem containsSub_append_space_tail {pat core : Str} (hpre : core <+: pat)
    (hnosp : ∀ c ∈ core, isWs c = false) :
    ∀ {x t : Str}, containsSub core x = false → containsSub pat (' ' :: t) = false →
      containsSub pat (x ++ ' ' :: t) = false := by
  intro x
  induction x with
  | nil => intro t _ ht; simpa using ht
  | cons c x' ih =>
    intro t hx ht
    simp only [List.cons_append, containsSub, Bool.or_eq_false_iff]
    constructor
    · cases hp : pat.isPrefixOf (c :: (x' ++ ' ' :: t))
      · rfl
      · exfalso
        have hcore : core.isPrefixOf ((c :: x') ++ ' ' :: t) = true := by
          rw [List.cons_append]
          exact isPrefixOf_of_le hpre hp
        have h2 := isPrefixOf_through_space hnosp hcore
        have h3 : containsSub core (c :: x') = true := by
          simp [containsSub, h2]
        rw [h3] at hx
        exact Bool.noConfusion hx
    · exact ih (containsSub_tail hx) ht

theorem containsSub_concrete_head {pat lit : Str} {c : Char} (hpat : pat.head? = some c)
    (hc : c ∉ lit) : ∀ {x : Str}, containsSub pat x = false →
      containsSub pat (lit ++ x) = false := by
  induction lit with
  | nil => intro x h; simpa using h
  | cons a lt ih =>
    intro x h
    simp only [List.cons_append, containsSub, Bool.or_eq_false_iff]
    refine ⟨?_, ih (fun hm => hc (List.mem_cons_of_mem a hm)) h⟩
    cases pat with
    | nil => exact absurd hpat (by simp)
    | cons p ps =>
      have hpc : p = c := by simpa using hpat
      have hne : (p == a) = false := by
        simp only [beq_eq_false_iff_ne, ne_eq]
        intro hh
        have hca : c = a := hpc.symm.trans hh
        exact hc (by rw [hca]; exact List.mem_cons_self a lt)
      simp [List.isPrefixOf, hne]

theorem takeClass_all : ∀ {x : Str}, (∀ c ∈ x, isClassChar c = true) → takeClass x = x := by
  intro x
  induction x with
  | nil => intro _; rfl
  | cons c cs ih =>
    intro h
    simp only [takeClass, h c (List.mem_cons_self c cs), if_true]
    rw [ih (fun d hd => h d (List.mem_cons_of_mem c hd))]

theorem searchLitClass_self {lit x : Str} (hlitne : lit ≠ [])
    (hx : takeClass x = x) (hxne : x ≠ []) :
    searchLitClass lit (lit ++ x) = some x := by
  obtain ⟨a, as, rfl⟩ := List.exists_cons_of_ne_nil hlitne
  have hp : (a :: as).isPrefixOf ((a :: as) ++ x) = true :=
    List.isPrefixOf_iff_prefix.mpr (List.prefix_append _ x)
  have hdrop : ((a :: as) ++ x).drop (a :: as).length = x := List.drop_left _ _
  rw [List.cons_append]
  simp only [searchLitClass]
  rw [← List.cons_append, hp]
  simp only [if_true]
  rw [hdrop, hx]
  simp [List.isEmpty_iff, hxne]

theorem strip_parts {x : Str} (h : pyStrip x = x) : trimLeft x = x ∧ trimRight x = x := by
  have hsub : List.Sublist (trimRight x) x := by
    have h1 := (List.dropWhile_sublist (l := x.reverse) isWs).reverse
    simpa [trimRight] using h1
  have hsub2 : List.Sublist (pyStrip x) (trimRight x) := List.dropWhile_sublist _
  have hlen1 : x.length ≤ (trimRight x).length := by
    have h2 := hsub2.length_le
    rwa [h] at h2
  have htr : trimRight x = x := hsub.eq_of_length (le_antisymm hsub.length_le hlen1)
  constructor
  · have h3 : pyStrip x = trimLeft x := by unfold pyStrip; rw [htr]
    rw [← h3, h]
  · exact htr

theorem head_not_ws_of_trimLeft {x : Str} (h : trimLeft x = x) :
    ∀ c, x.head? = some c → isWs c = false := by
  intro c hc
  cases x with
  | nil => simp at hc
  | cons a y =>
    obtain rfl : a = c := by simpa using hc
    by_contra hws
    simp only [Bool.not_eq_false] at hws
    simp only [trimLeft, List.dropWhile_cons, hws, if_true] at h
    have hlen := congrArg List.length h
    have hle := (List.dropWhile_sublist (l := y) isWs).length_le
    simp only [List.length_cons] at hlen
    omega

theorem getLast_not_ws_of_trimRight {x : Str} (h : trimRight x = x) :
    ∀ c, x.getLast? = some c → isWs c = false := by
  intro c hc
  have hrev : trimLeft x.reverse = x.reverse := by
    unfold trimRight at h
    unfold trimLeft
    have h2 := congrArg List.reverse h
    simpa using h2
  exact head_not_ws_of_trimLeft hrev c (by rwa [List.head?_reverse])

theorem trimLeft_append {a b : Str} (ha : ∀ c, a.head? = some c → isWs c = false)
    (hane : a ≠ []) : trimLeft (a ++ b) = a ++ b := by
  obtain ⟨c, r, rfl⟩ := List.exists_cons_of_ne_nil hane
  have hc := ha c rfl
  simp [trimLeft, List.dropWhile_cons, hc]

theorem trimRight_append {a b : Str} (hb : ∀ c, b.getLast? = some c → isWs c = false)
    (hbne : b ≠ []) : trimRight (a ++ b) = a ++ b := by
  unfold trimRight
  rw [List.reverse_append]
  have hbrev : b.reverse ≠ [] := by simpa using hbne
  obtain ⟨c, r, hcr⟩ := List.exists_cons_of_ne_nil hbrev
  have hc : isWs c = false := hb c (by rw [← List.head?_reverse, hcr]; rfl)
  rw [hcr, List.cons_append, List.dropWhile_cons, hc]
  simp only [Bool.false_eq_true, if_false]
  rw [← List.cons_append, ← hcr, ← List.reverse_append, List.reverse_reverse]

theorem pyStrip_append_left {lit x : Str} (hlit : ∀ c, lit.head? = some c → isWs c = false)
    (hlitne : lit ≠ []) (hx : pyStrip x = x) (hxne : x ≠ []) :
    pyStrip (lit ++ x) = lit ++ x := by
  have hparts := strip_parts hx
  have htr : trimRight (lit ++ x) = lit ++ x :=
    trimRight_append (getLast_not_ws_of_trimRight hparts.2) hxne
  unfold pyStrip
  rw [htr]
  exact trimLeft_append hlit hlitne

theorem pyStrip_append_right {x t : Str} (hx : pyStrip x = x) (hxne : x ≠ [])
    (ht : ∀ c, t.getLast? = some c → isWs c = false) (htne : t ≠ []) :
    pyStrip (x ++ t) = x ++ t := by
  have hparts := strip_parts hx
  have htr := trimRight_append (a := x) ht htne
  unfold pyStrip
  rw [htr]
  exact trimLeft_append (head_not_ws_of_trimLeft hparts.1) hxne

theorem pyLower_append (a b : Str) : pyLower (a ++ b) = pyLower a ++ pyLower b :=
  List.map_append _ _ _

theorem drop_append_right (x t : Str) (k : ℕ) : (x ++ t).drop (x.length + k) = t.drop k := by
  rw [List.drop_append_eq_append_drop]
  have h1 : x.drop (x.length + k) = [] := List.drop_eq_nil_of_le (by omega)
  have h2 : x.length + k - x.length = k := by omega
  rw [h1, h2, List.nil_append]

theorem tryLen_shift (R s : Str) (m : ℕ) :
    ∀ k, (∀ j, 1 ≤ j → j ≤ k → wsThenLit (s.drop (m + j)) = false) →
      tryLen R s (m + k) = tryLen R s m := by
  intro k
  induction k with
  | zero => intro _; rfl
  | succ k' ih =>
    intro h
    have hmk : m + (k' + 1) = (m + k') + 1 := by omega
    rw [hmk]
    simp only [tryLen]
    have hcond : wsThenLit (s.drop (m + k' + 1)) = false := by
      have := h (k' + 1) (by omega) (le_refl _)
      rwa [← Nat.add_assoc] at this
    rw [hcond]
    simp only [Bool.false_eq_true, if_false]
    exact ih (fun j h1 h2 => h j h1 (by omega))

theorem revSearch_append_weather : ∀ {x : Str}, x ≠ [] →
    (∀ c ∈ x, isClassChar c = true) →
    revSearch (x ++ " weather".toList) = some x := by
  have hwc : ∀ c ∈ (" weather".toList : Str), isClassChar c = true := by decide
  intro x hxne hclass
  have hq : ∀ c ∈ x ++ " weather".toList, isClassChar c = true := by
    intro c hc
    rcases List.mem_append.mp hc with h | h
    · exact hclass c h
    · exact hwc c h
  have hR : takeClass (x ++ " weather".toList) = x ++ " weather".toList := takeClass_all hq
  have hRlen : (takeClass (x ++ " weather".toList)).length = x.length + 8 := by
    rw [hR, List.length_append]
    rfl
  have hshift : ∀ j, 1 ≤ j → j ≤ 8 →
      wsThenLit ((x ++ " weather".toList).drop (x.length + j)) = false := by
    intro j h1 h8
    rw [drop_append_right]
    interval_cases j <;> decide
  have hstep : tryLen (takeClass (x ++ " weather".toList)) (x ++ " weather".toList)
      x.length = some x := by
    obtain ⟨n, hn⟩ : ∃ n, x.length = n + 1 := by
      cases x with
      | nil => exact absurd rfl hxne
      | cons a y => exact ⟨y.length, rfl⟩
    rw [hn]
    simp only [tryLen]
    rw [← hn]
    have hdrop : (x ++ " weather".toList).drop x.length = " weather".toList :=
      List.drop_left x _
    have htake : (x ++ " weather".toList).take x.length = x := List.take_left x _
    rw [hdrop]
    have hws : wsThenLit (" weather".toList) = true := by decide
    rw [hws]
    simp only [if_true]
    rw [hR, htake]
  have hmatch : revMatchAt (x ++ " weather".toList) = some x := by
    show tryLen (takeClass (x ++ " weather".toList)) (x ++ " weather".toList)
        (takeClass (x ++ " weather".toList)).length = some x
    rw [hRlen, tryLen_shift _ _ x.length 8 hshift, hstep]
  obtain ⟨c, x', rfl⟩ := List.exists_cons_of_ne_nil hxne
  rw [List.cons_append]
  simp only [revSearch]
  rw [← List.cons_append, hmatch]

/-- Counterexample for C7 as stated: for X = "is goa" (length > 2 after the
spec's stop-word stripping), "temperature in is goa" resolves to "Is Goa" —
the branch strips only six stop words — while the spec's normalization
yields "Goa". -/
theorem phrase_patterns_counterexample :
    extract_location ("temperature in is goa".toList) = some ("Is Goa".toList) ∧
    specNormalize ("is goa".toList) = some ("Goa".toList) ∧
    ("Is Goa".toList : Str) ≠ ("Goa".toList : Str) :=
  ⟨by decide, by decide, by decide⟩

/-- C7 (amended): for every location string `x` of class characters
(lowercase-stable, trimmed, not containing "weather"/"temperature"/
"forecast") that keeps more than 2 characters after stripping the six stop
words `{the, at, in, for, near, th}`, the queries "weather in x",
"temperature in x" and "x weather" all extract `x` with those six stop
words removed, trimmed and title-cased. -/
theorem phrase_patterns_extract (x : Str)
    (hne : x ≠ [])
    (hclass : ∀ c ∈ x, isClassChar c = true)
    (hlower : pyLower x = x)
    (hstrip : pyStrip x = x)
    (hw : containsSub ("weather".toList) x = false)
    (ht : containsSub ("temperature".toList) x = false)
    (hf : containsSub ("forecast".toList) x = false)
    (hlen : 2 < (pyStrip (subStops stops6 false x)).length) :
    extract_location (pat1 ++ x) = some (pyTitle (pyStrip (subStops stops6 false x))) ∧
    extract_location (pat3 ++ x) = some (pyTitle (pyStrip (subStops stops6 false x))) ∧
    extract_location (x ++ " weather".toList) =
      some (pyTitle (pyStrip (subStops stops6 false x))) := by
  have hnormPR : normPR x = some (pyTitle (pyStrip (subStops stops6 false x))) := by
    simp only [normPR, hstrip]
    rw [if_pos hlen]
  have hTC : takeClass x = x := takeClass_all hclass
  have hx_p1 : containsSub pat1 x = false :=
    containsSub_mono (show ("weather".toList : Str) <:+: pat1 by decide) hw
  have hx_p2 : containsSub pat2 x = false :=
    containsSub_mono (show ("weather".toList : Str) <:+: pat2 by decide) hw
  refine ⟨?_, ?_, ?_⟩
  · have hq1ne : pat1 ++ x ≠ [] := fun h => absurd (List.append_eq_nil.mp h).2 hne
    have hstrip1 : pyStrip (pat1 ++ x) = pat1 ++ x :=
      pyStrip_append_left
        (by intro c hc; obtain rfl : 'w' = c := Option.some.inj hc; decide)
        (by decide) hstrip hne
    have hlow1 : pyLower (pat1 ++ x) = pat1 ++ x := by
      rw [pyLower_append, hlower, show pyLower pat1 = pat1 from by decide]
    have hs1 : searchLitClass pat1 (pat1 ++ x) = some x :=
      searchLitClass_self (by decide) hTC hne
    simp only [extract_location, if_neg hq1ne, hstrip1, hlow1, hs1, oBind, hnormPR, oOr]
  · have hq2ne : pat3 ++ x ≠ [] := fun h => absurd (List.append_eq_nil.mp h).2 hne
    have hstrip2 : pyStrip (pat3 ++ x) = pat3 ++ x :=
      pyStrip_append_left
        (by intro c hc; obtain rfl : 't' = c := Option.some.inj hc; decide)
        (by decide) hstrip hne
    have hlow2 : pyLower (pat3 ++ x) = pat3 ++ x := by
      rw [pyLower_append, hlower, show pyLower pat3 = pat3 from by decide]
    have hn1 : searchLitClass pat1 (pat3 ++ x) = none :=
      searchLitClass_eq_none (containsSub_concrete_head
        (show pat1.head? = some 'w' from rfl) (by decide) hx_p1)
    have hn2 : searchLitClass pat2 (pat3 ++ x) = none :=
      searchLitClass_eq_none (containsSub_concrete_head
        (show pat2.head? = some 'w' from rfl) (by decide) hx_p2)
    have hs3 : searchLitClass pat3 (pat3 ++ x) = some x :=
      searchLitClass_self (by decide) hTC hne
    simp only [extract_location, if_neg hq2ne, hstrip2, hlow2, hn1, hn2, hs3, oBind,
      hnormPR, oOr]
  · have htail : (" weather".toList : Str) = ' ' :: "weather".toList := rfl
    have hq3ne : x ++ " weather".toList ≠ [] :=
      fun h => absurd (List.append_eq_nil.mp h).1 hne
    have hstrip3 : pyStrip (x ++ " weather".toList) = x ++ " weather".toList :=
      pyStrip_append_right hstrip hne
        (by intro c hc; obtain rfl : 'r' = c := Option.some.inj hc; decide) (by decide)
    have hlow3 : pyLower (x ++ " weather".toList) = x ++ " weather".toList := by
      rw [pyLower_append, hlower,
        show pyLower (" weather".toList) = " weather".toList from by decide]
    have hq3_1 : containsSub pat1 (x ++ " weather".toList) = false := by
      rw [htail]
      exact containsSub_append_space_tail
        (show ("weather".toList : Str) <+: pat1 by decide) (by decide) hw (by decide)
    have hq3_WI : containsSub patWI (x ++ " weather".toList) = false := hq3_1
    have hq3_2 : containsSub pat2 (x ++ " weather".toList) = false := by
      rw [htail]
      exact containsSub_append_space_tail
        (show ("weather".toList : Str) <+: pat2 by decide) (by decide) hw (by decide)
    have hq3_9 : containsSub pat9 (x ++ " weather".toList) = false := by
      rw [htail]
      exact containsSub_append_space_tail
        (show ("weather".toList : Str) <+: pat9 by decide) (by decide) hw (by decide)
    have hq3_3 : containsSub pat3 (x ++ " weather".toList) = false := by
      rw [htail]
      exact containsSub_append_space_tail
        (show ("temperature".toList : Str) <+: pat3 by decide) (by decide) ht (by decide)
    have hq3_10 : containsSub pat10 (x ++ " weather".toList) = false := by
      rw [htail]
      exact containsSub_append_space_tail
        (show ("temperature".toList : Str) <+: pat10 by decide) (by decide) ht (by decide)
    have hq3_4 : containsSub pat4 (x ++ " weather".toList) = false := by
      rw [htail]
      exact containsSub_append_space_tail
        (show ("forecast".toList : Str) <+: pat4 by decide) (by decide) hf (by decide)
    have hq3_7 : containsSub pat7 (x ++ " weather".toList) = false :=
      containsSub_mono (show pat1 <:+: pat7 by decide) hq3_1
    have hq3_8 : containsSub pat8 (x ++ " weather".toList) = false :=
      containsSub_mono (show pat1 <:+: pat8 by decide) hq3_1
    have hrev : revSearch (x ++ " weather".toList) = some x :=
      revSearch_append_weather hne hclass
    simp only [extract_location, if_neg hq3ne, hstrip3, hlow3,
      searchLitClass_eq_none hq3_1, searchLitClass_eq_none hq3_2,
      searchLitClass_eq_none hq3_3, searchLitClass_eq_none hq3_4,
      searchDotStar_eq_none hq3_WI,
      searchLitClass_eq_none hq3_7, searchLitClass_eq_none hq3_8,
      searchLitClass_eq_none hq3_9, searchLitClass_eq_none hq3_10,
      hrev, oBind, hnormPR, oOr]

/-- Witness for C7's amended statement at x = "goa". -/
theorem phrase_patterns_extract_witness :
    extract_location (pat1 ++ "goa".toList) =
      some (pyTitle (pyStrip (subStops stops6 false ("goa".toList)))) ∧
    extract_location (pat3 ++ "goa".toList) =
      some (pyTitle (pyStrip (subStops stops6 false ("goa".toList)))) ∧
    extract_location ("goa".toList ++ " weather".toList) =
      some (pyTitle (pyStrip (subStops stops6 false ("goa".toList)))) :=
  phrase_patterns_extract ("goa".toList) (by decide) (by decide) (by decide)
    (by decide) (by decide) (by decide) (by decide) (by decide)
